import Mathlib

/-!
Verification of the nested-set (MPTT) tree manager in
`contentcuration/db/models/manager.py` (`CustomContentNodeTreeManager`).

The Python code is shallowly embedded: pure data manipulation becomes Lean
functions, database/ORM effects are modelled by explicit inputs and outputs
(outcome records, id supplies, oracles for collaborator methods), and Python
exceptions become an explicit error type threaded through `Except`/`Option`.
-/

/-- Python exception values relevant to the embedded code.  An
`operationalError` carries `e.args[0]` (the message); `attributeError` models
attribute access on `None`; `keyError` models a failing `dict[...]` subscript;
`runtimeError` models the `RuntimeError` that `contextlib` raises when a
generator context manager yields again after `gen.throw` (Python's message
reads "generator didn't stop after throw()"); `otherError` stands for any
other exception class. -/
inductive PyErr where
  | operationalError (msg : String)
  | attributeError (msg : String)
  | keyError (key : String)
  | runtimeError (msg : String)
  | otherError (msg : String)
  deriving Repr, DecidableEq

/-- Helper: is the first list a prefix of the second? -/
def listPrefixOf : List Char → List Char → Bool
  | [], _ => true
  | _ :: _, [] => false
  | a :: as, b :: bs => a == b && listPrefixOf as bs

/-- Helper: does the first list occur contiguously inside the second? -/
def listInfixOf (needle : List Char) : List Char → Bool
  | [] => listPrefixOf needle []
  | b :: bs => listPrefixOf needle (b :: bs) || listInfixOf needle bs

/-- Python's substring test `needle in haystack`: does the needle occur
contiguously in the haystack? -/
def pyContains (haystack needle : String) : Bool :=
  listInfixOf needle.toList haystack.toList

/-- The test applied by `lock_mptt`'s `except OperationalError` handler:
only an `OperationalError` whose `args[0]` contains "deadlock detected"
is treated as a deadlock.  Any other exception is re-raised / uncaught. -/
def isDeadlockError : PyErr → Bool
  | .operationalError msg => pyContains msg "deadlock detected"
  | _ => false

/-- Embeds line 106: `tree_ids = sorted((t for t in set(tree_ids) if t is not None))`.
`toFinset` is Python's `set(...)` (deduplication), `filterMap id` drops `None`,
and `Finset.sort` is `sorted(...)` in ascending order. -/
def normalizeTreeIds (treeIds : List (Option Nat)) : List Nat :=
  ((treeIds.filterMap id).toFinset).sort (· ≤ ·)

theorem mem_normalizeTreeIds (l : List (Option Nat)) (x : Nat) :
    x ∈ normalizeTreeIds l ↔ some x ∈ l := by
  unfold normalizeTreeIds
  rw [Finset.mem_sort, List.mem_toFinset, List.mem_filterMap]
  constructor
  · rintro ⟨a, ha, rfl⟩
    exact ha
  · intro hx
    exact ⟨some x, hx, rfl⟩

theorem normalizeTreeIds_isEmpty_false (l : List (Option Nat)) (x : Nat)
    (h : some x ∈ l) : (normalizeTreeIds l).isEmpty = false := by
  have hx := (mem_normalizeTreeIds l x).mpr h
  cases hnl : normalizeTreeIds l with
  | nil => rw [hnl] at hx; exact absurd hx (List.not_mem_nil x)
  | cons a as => rfl

/-- The lock-acquisition loop of `_attempt_lock` (lines 94-100): one blocking
`select_for_update` row-range read is issued per tree id, in the order of the
list it is given.  The emitted sequence of locked tree ids is the list itself. -/
def attemptLockOrder (tree_ids : List Nat) : List Nat :=
  tree_ids

/-- The sequence of per-tree lock acquisitions a successful `lock_mptt`
critical section performs for caller-supplied `treeIds`: `_attempt_lock` is
invoked on the normalized list. -/
def lockAcquisitionOrder (treeIds : List (Option Nat)) : List Nat :=
  attemptLockOrder (normalizeTreeIds treeIds)

/-- Outcome of one entry into `_attempt_lock`: `lockOutcome = some e` means
the fresh `transaction.atomic()` block + locking loop raised `e` before
reaching `_attempt_lock`'s `yield`.  `bodyOutcome` is the outcome the
protected `with`-body would have if it is started under this attempt's locks
(`none` = normal return); since `lock_mptt` is a generator context manager,
at most one attempt ever starts the body. -/
structure LockAttempt where
  lockOutcome : Option PyErr
  bodyOutcome : Option PyErr
  deriving Repr, DecidableEq

/-- Observable behaviour of one `lock_mptt` invocation: the overall outcome
(`none` = success), how many times the protected body was started, and whether
the deadlock-retry path (with its error log) was taken. -/
structure LockRun where
  result : Option PyErr
  bodyStarts : Nat
  loggedRetry : Bool
  deriving Repr, DecidableEq

/-- Runs one attempt: if the locking loop fails the body never starts;
otherwise the body runs once and its outcome is the attempt's outcome. -/
def runAttempt (a : LockAttempt) : Option PyErr × Nat :=
  match a.lockOutcome with
  | some e => (some e, 0)
  | none => (a.bodyOutcome, 1)

/-- Embeds one `with lock_mptt(*tree_ids): body` execution (lines 104-138,
under the `@contextlib.contextmanager` generator protocol).  `attempts n` is
the outcome the `n`-th entry into `_attempt_lock` would have (the code only
ever uses entries `0` and `1`).  When the model is inside a delay-updates
context (`_mptt_is_tracking`), updates are disabled, or no non-`None` tree
ids were supplied, no locking happens and the body simply runs once.
Otherwise:

* a failure raised while entering the first `_attempt_lock` — before the
  body has started — is caught by the `except OperationalError` handler when
  it is deadlock-labelled, logged, and retried exactly once in a fresh
  transaction, the body then running (once) under the retry's locks; any
  other failure propagates, as does any failure of the retry;
* once the first locks are acquired the body runs exactly once.  If it
  raises, the exception is delivered by `gen.throw` at the first `yield`.
  A deadlock-labelled `OperationalError` is caught by the same handler,
  which logs, re-enters `_attempt_lock` (re-acquiring the locks) and
  reaches the second `yield` — so `contextlib` raises
  `RuntimeError("generator didn't stop after throw()")` and the body is
  never re-entered; if the handler's `_attempt_lock` itself fails, that
  failure propagates out of `gen.throw`; a non-deadlock body exception
  propagates unchanged. -/
def lock_mptt (mpttIsTracking mpttUpdatesEnabled : Bool)
    (treeIds : List (Option Nat)) (attempts : Nat → LockAttempt) : LockRun :=
  let tree_ids := normalizeTreeIds treeIds
  if !mpttIsTracking && mpttUpdatesEnabled && !tree_ids.isEmpty then
    match (attempts 0).lockOutcome with
    | some e =>
      if isDeadlockError e then
        let second := runAttempt (attempts 1)
        ⟨second.1, second.2, true⟩
      else
        ⟨some e, 0, false⟩
    | none =>
      match (attempts 0).bodyOutcome with
      | none => ⟨none, 1, false⟩
      | some e =>
        if isDeadlockError e then
          match (attempts 1).lockOutcome with
          | some e2 => ⟨some e2, 1, true⟩
          | none =>
            ⟨some (.runtimeError "generator did not stop after throw()"),
             1, true⟩
        else
          ⟨some e, 1, false⟩
  else
    ⟨(attempts 0).bodyOutcome, 1, false⟩

/-- C3 — `lock_mptt` normalizes the caller-supplied tree ids by deduplicating,
dropping `None` entries and sorting ascending, and acquires the per-tree locks
in exactly that order: the acquisition sequence is strictly ascending, its
members are exactly the non-`None` inputs, and any two inputs with the same
set of non-`None` tree ids produce identical acquisition sequences. -/
theorem lock_acquisition_order_canonical
    (l1 l2 : List (Option Nat))
    (h : ∀ x : Nat, some x ∈ l1 ↔ some x ∈ l2) :
    lockAcquisitionOrder l1 = lockAcquisitionOrder l2 ∧
    List.Sorted (· < ·) (lockAcquisitionOrder l1) ∧
    (∀ x : Nat, x ∈ lockAcquisitionOrder l1 ↔ some x ∈ l1) := by
  have hmem : ∀ (l : List (Option Nat)) (x : Nat),
      x ∈ lockAcquisitionOrder l ↔ some x ∈ l := by
    intro l x
    unfold lockAcquisitionOrder attemptLockOrder
    exact mem_normalizeTreeIds l x
  refine ⟨?_, ?_, hmem l1⟩
  · have : (l1.filterMap id).toFinset = (l2.filterMap id).toFinset := by
      apply Finset.ext
      intro x
      rw [List.mem_toFinset, List.mem_toFinset, List.mem_filterMap,
        List.mem_filterMap]
      constructor
      · rintro ⟨a, ha, rfl⟩
        exact ⟨some x, (h x).mp ha, rfl⟩
      · rintro ⟨a, ha, rfl⟩
        exact ⟨some x, (h x).mpr ha, rfl⟩
    unfold lockAcquisitionOrder attemptLockOrder normalizeTreeIds
    rw [this]
  · unfold lockAcquisitionOrder attemptLockOrder normalizeTreeIds
    exact Finset.sort_sorted_lt _

/-- Witness for C3 at concrete inputs: `[3, None, 1, 3]` and `[1, 3, None]`
hold the same non-`None` ids, so the acquisition sequences coincide. -/
theorem lock_acquisition_order_canonical_witness :
    lockAcquisitionOrder [some 3, none, some 1, some 3] =
      lockAcquisitionOrder [some 1, some 3, none] :=
  (lock_acquisition_order_canonical [some 3, none, some 1, some 3]
    [some 1, some 3, none] (by intro x; simp; tauto)).1

/-- C2 — when `lock_mptt` attempts locking (tracking off, updates enabled,
non-empty normalized ids): a first-attempt failure that is a deadlock-labelled
`OperationalError` is logged and retried exactly once, the overall outcome
then being whatever the second attempt produces (so a failing retry
propagates as fatal); any other failure propagates immediately with no retry;
and no attempt beyond the first retry is ever consulted. -/
theorem lock_mptt_deadlock_single_retry
    (tids : List (Option Nat)) (attempts : Nat → LockAttempt)
    (hids : (normalizeTreeIds tids).isEmpty = false) :
    ((∀ e, (attempts 0).lockOutcome = some e → isDeadlockError e = true →
        (lock_mptt false true tids attempts).loggedRetry = true ∧
        (lock_mptt false true tids attempts).result = (runAttempt (attempts 1)).1) ∧
     (∀ e, (attempts 0).lockOutcome = some e → isDeadlockError e = false →
        (lock_mptt false true tids attempts).result = some e ∧
        (lock_mptt false true tids attempts).loggedRetry = false) ∧
     (∀ e e2, (attempts 0).lockOutcome = some e → isDeadlockError e = true →
        (attempts 1).lockOutcome = some e2 →
        (lock_mptt false true tids attempts).result = some e2) ∧
     (∀ attempts2 : Nat → LockAttempt, attempts2 0 = attempts 0 →
        attempts2 1 = attempts 1 →
        lock_mptt false true tids attempts2 = lock_mptt false true tids attempts)) := by
  unfold lock_mptt
  simp only [Bool.not_false, Bool.true_and, hids, Bool.not_false, Bool.and_true,
    if_true]
  refine ⟨?_, ?_, ?_, ?_⟩
  · intro e he hd
    simp [runAttempt, he, hd]
  · intro e he hd
    simp [runAttempt, he, hd]
  · intro e e2 he hd he2
    simp [runAttempt, he, hd, he2]
  · intro a2 h0 h1
    simp [runAttempt, h0, h1]

/-- Witness for C2: a concrete run whose first lock attempt deadlocks and
whose retry succeeds; the retry is logged and the run succeeds. -/
theorem lock_mptt_deadlock_single_retry_witness :
    (normalizeTreeIds [some 1, some 2]).isEmpty = false ∧
    (lock_mptt false true [some 1, some 2]
        (fun n => if n = 0 then ⟨some (.operationalError "deadlock detected"), none⟩
                  else ⟨none, none⟩)).loggedRetry = true := by
  have h := lock_mptt_deadlock_single_retry [some 1, some 2]
    (fun n => if n = 0 then ⟨some (.operationalError "deadlock detected"), none⟩
              else ⟨none, none⟩)
    (normalizeTreeIds_isEmpty_false _ 1 (by simp))
  exact ⟨normalizeTreeIds_isEmpty_false _ 1 (by simp),
    (h.1 (.operationalError "deadlock detected") rfl (by decide)).1⟩

/-- C10 counterexample — the configuration the original claim says re-runs
the body: locking active, a body-raised deadlock-labelled `OperationalError`,
and a retry whose lock acquisition succeeds.  The body starts once, not
twice, and the `with` statement raises contextlib's `RuntimeError` (the
handler's second `yield` after `gen.throw`), so no second run of the body's
side effects can ever be observed. -/
theorem lock_mptt_body_rerun_cex :
    (lock_mptt false true [some 1, some 2]
        (fun n => if n = 0
                  then ⟨none, some (.operationalError "deadlock detected")⟩
                  else ⟨none, none⟩)).bodyStarts = 1
    ∧ (lock_mptt false true [some 1, some 2]
        (fun n => if n = 0
                  then ⟨none, some (.operationalError "deadlock detected")⟩
                  else ⟨none, none⟩)).result
      = some (.runtimeError "generator did not stop after throw()") := by
  have hids := normalizeTreeIds_isEmpty_false [some 1, some 2] 1 (by simp)
  have hdd : isDeadlockError (.operationalError "deadlock detected")
      = true := by decide
  refine ⟨?_, ?_⟩ <;>
    (unfold lock_mptt; simp [hids, hdd])

/-- C10 amended — the body handed to `lock_mptt` executes at most once.
`lock_mptt` is a `@contextlib.contextmanager` generator: a deadlock-labelled
`OperationalError` raised during lock acquisition is retried before the body
has started, so the body then runs once under the retry's locks; one raised
by the body itself is thrown into the generator at the first `yield`, whose
handler re-acquires the locks and reaches the second `yield`, making
contextlib raise `RuntimeError` instead of re-entering the body.  So the
body's non-transactional side effects are observed from at most one run. -/
theorem lock_mptt_body_at_most_once
    (tids : List (Option Nat)) (attempts : Nat → LockAttempt) :
    (∀ m u : Bool, (lock_mptt m u tids attempts).bodyStarts ≤ 1)
    ∧ (∀ e, (normalizeTreeIds tids).isEmpty = false →
        (attempts 0).lockOutcome = none →
        (attempts 0).bodyOutcome = some e → isDeadlockError e = true →
        (attempts 1).lockOutcome = none →
        lock_mptt false true tids attempts
          = ⟨some (.runtimeError "generator did not stop after throw()"),
             1, true⟩) := by
  constructor
  · intro m u
    unfold lock_mptt
    dsimp only
    split
    · cases h0 : (attempts 0).lockOutcome with
      | some e =>
        by_cases hd : isDeadlockError e
        · have hb : (runAttempt (attempts 1)).2 ≤ 1 := by
            unfold runAttempt
            cases (attempts 1).lockOutcome <;> simp
          simp [hd, hb]
        · simp [hd]
      | none =>
        cases hb : (attempts 0).bodyOutcome with
        | none => simp
        | some e =>
          by_cases hd : isDeadlockError e
          · cases h1 : (attempts 1).lockOutcome <;> simp [hd]
          · simp [hd]
    · simp
  · intro e hids h0 hb hd h1
    unfold lock_mptt
    simp [hids, h0, hb, hd, h1]

/-- Witness for C10 at a concrete input: a body-raised deadlock with a
succeeding retry — the body starts at most once and the run ends in
contextlib's `RuntimeError`. -/
theorem lock_mptt_body_at_most_once_witness :
    (lock_mptt false true [some 7]
        (fun n => if n = 0
                  then ⟨none, some (.operationalError "deadlock detected")⟩
                  else ⟨none, none⟩)).bodyStarts ≤ 1
    ∧ lock_mptt false true [some 7]
        (fun n => if n = 0
                  then ⟨none, some (.operationalError "deadlock detected")⟩
                  else ⟨none, none⟩)
        = ⟨some (.runtimeError "generator did not stop after throw()"),
           1, true⟩ :=
  ⟨(lock_mptt_body_at_most_once [some 7]
      (fun n => if n = 0
                then ⟨none, some (.operationalError "deadlock detected")⟩
                else ⟨none, none⟩)).1 false true,
   (lock_mptt_body_at_most_once [some 7]
      (fun n => if n = 0
                then ⟨none, some (.operationalError "deadlock detected")⟩
                else ⟨none, none⟩)).2
     (.operationalError "deadlock detected")
     (normalizeTreeIds_isEmpty_false _ 7 (by simp)) rfl rfl (by decide) rfl⟩

/-! ### Tree Mutator: `move_node` (lines 188-224) -/

/-- The MPTT fields of a node as seen by `move_node`'s argument evaluation. -/
structure MpttNode where
  id : Nat
  tree_id : Nat
  deriving Repr, DecidableEq

/-- Python attribute access `target.tree_id` on a possibly-`None` reference:
`None.tree_id` raises `AttributeError`. -/
def attrTreeId : Option MpttNode → Except PyErr Nat
  | none => .error (.attributeError "NoneType object has no attribute tree_id")
  | some t => .ok t.tree_id

/-- Embeds `move_node` (lines 211-224).  The first statement is
`with self.lock_mptt(node.tree_id, target.tree_id):`, whose arguments are
evaluated before anything else happens; everything that runs afterwards
(`lock_mptt`, `_mptt_refresh`, `_move_node`, `save`, the `node_moved` signal)
involves external collaborators and is abstracted as the oracle `rest`, which
receives the two tree ids and the position. -/
def move_node (node : MpttNode) (target : Option MpttNode) (position : String)
    (rest : Nat → Nat → String → Except PyErr Unit) : Except PyErr Unit := do
  let targetTreeId ← attrTreeId target
  rest node.tree_id targetTreeId position

/-- C8 — contrary to the claim (and to `move_node`'s own docstring, which
promises that a `None` target turns the node into a new root), calling
`move_node` with `target = None` always raises `AttributeError` while
evaluating `target.tree_id` in the `lock_mptt` call, for every node, position
and every possible behaviour of the downstream machinery. -/
theorem move_node_none_target_raises (node : MpttNode) (position : String)
    (rest : Nat → Nat → String → Except PyErr Unit) :
    move_node node none position rest =
      .error (.attributeError "NoneType object has no attribute tree_id") := rfl

/-! ### Dependent-Record Copier (lines 413-538) -/

/-- Python `dict.get(k)` over an association list; assignments later in the
list overwrite earlier ones, hence the lookup on the reversed list. -/
def pyDictGet {κ ν : Type} [BEq κ] (m : List (κ × ν)) (k : κ) : Option ν :=
  List.lookup k m.reverse

/-- Python `dict[k]`: `KeyError` when the key is missing. -/
def pyDictSubscript {κ ν : Type} [BEq κ] (m : List (κ × ν)) (k : κ)
    (msg : String) : Except PyErr ν :=
  match pyDictGet m k with
  | some v => Except.ok v
  | none => Except.error (.keyError msg)

/-- A `File` row as used by `_copy_files`: its primary key and the content
node it is attached to. -/
structure FileRec where
  id : Option Nat
  contentnode_id : Nat
  deriving Repr, DecidableEq

/-- An `AssessmentItem` row as used by `_copy_assessment_items`. -/
structure AssessmentItemRec where
  id : Nat
  contentnode_id : Nat
  assessment_id : String
  deriving Repr, DecidableEq

/-- A `File` row owned by an assessment item. -/
structure AssessmentFileRec where
  id : Option Nat
  assessment_item_id : Nat
  deriving Repr, DecidableEq

/-- A `ContentTag` row (id and name; only null-channel tags are created). -/
structure TagRec where
  id : Nat
  tag_name : String
  deriving Repr, DecidableEq

/-- A node-tag association row as read from the through table. -/
structure TagMappingRec where
  contenttag_id : Nat
  contentnode_id : Nat
  deriving Repr, DecidableEq

/-- A node-tag association row as built by `_copy_tags`: the node reference
comes from `source_copy_id_map.get(...)` and may therefore be `None`. -/
structure TagMappingNew where
  contenttag_id : Nat
  contentnode_id : Option Nat
  deriving Repr, DecidableEq

/-- Embeds `_copy_files` (lines 518-529): every file attached to a copied
node is duplicated with a fresh (unset) id and its node reference rewritten
through `source_copy_id_map[file.contentnode_id]` — a raising subscript. -/
def copy_files (source_copy_id_map : List (Nat × Nat))
    (node_files : List FileRec) : Except PyErr (List FileRec) :=
  node_files.mapM (fun file => do
    let newNodeId ← pyDictSubscript source_copy_id_map file.contentnode_id
      "contentnode_id"
    pure { file with id := none, contentnode_id := newNodeId })

/-- Embeds `_copy_assessment_items` (lines 477-516).  First loop: clear ids,
remap each item's node reference through `source_copy_id_map[...]` (raising
subscript) and record the old id under the key
`new contentnode_id + ":" + assessment_id` (modelled as a pair).  Bulk create
assigns fresh ids (`freshItemIds` applied to the position).  Second loop
correlates old ids to new ids through that key.  Finally the files owned by
the items are repointed through the old-to-new id map (raising subscript). -/
def copy_assessment_items (source_copy_id_map : List (Nat × Nat))
    (node_assessmentitems : List AssessmentItemRec)
    (node_assessmentitem_files : List AssessmentFileRec)
    (freshItemIds : Nat → Nat) :
    Except PyErr (List AssessmentItemRec × List AssessmentFileRec) := do
  let remapped ← node_assessmentitems.mapM (fun ai => do
    let newNodeId ← pyDictSubscript source_copy_id_map ai.contentnode_id
      "contentnode_id"
    pure ({ ai with contentnode_id := newNodeId }, ai.id))
  let oldIdLookup : List ((Nat × String) × Nat) :=
    remapped.map (fun p => ((p.1.contentnode_id, p.1.assessment_id), p.2))
  let created : List AssessmentItemRec :=
    (List.range remapped.length).zip remapped |>.map
      (fun p => { p.2.1 with id := freshItemIds p.1 })
  let newIdLookup ← created.mapM (fun ai => do
    let oldId ← pyDictSubscript oldIdLookup (ai.contentnode_id, ai.assessment_id)
      "old id lookup"
    pure (oldId, ai.id))
  let newFiles ← node_assessmentitem_files.mapM (fun file => do
    let newItemId ← pyDictSubscript newIdLookup file.assessment_item_id
      "assessment_item_id"
    pure { file with id := none, assessment_item_id := newItemId })
  pure (created, newFiles)

/-- Embeds `_copy_tags` (lines 424-475): reuse an existing null-channel tag
of the same name or create a fresh one (`freshTagIds` models the ids the
`ContentTag` constructor assigns), then duplicate the association rows,
mapping the tag id through `tag_id_map.get(ct, ct)` (defaulting to the
original) and the node id through `source_copy_id_map.get(cn)` — a
non-raising lookup that yields `None` for a missing key. -/
def copy_tags (source_copy_id_map : List (Nat × Nat))
    (node_tags_mappings : List TagMappingRec)
    (tags_to_copy : List TagRec)
    (existing_tags_lookup : List (String × Nat))
    (freshTagIds : Nat → Nat) : List TagRec × List TagMappingNew :=
  let step := tags_to_copy.foldl
    (fun (acc : List (Nat × Nat) × List TagRec × Nat) tag =>
      match pyDictGet existing_tags_lookup tag.tag_name with
      | some existingId => (acc.1 ++ [(tag.id, existingId)], acc.2.1, acc.2.2)
      | none =>
        let newTag : TagRec := ⟨freshTagIds acc.2.2, tag.tag_name⟩
        (acc.1 ++ [(tag.id, newTag.id)], acc.2.1 ++ [newTag], acc.2.2 + 1))
    ([], [], 0)
  let mappings_to_create := node_tags_mappings.map (fun mapping =>
    { contenttag_id :=
        (pyDictGet step.1 mapping.contenttag_id).getD mapping.contenttag_id,
      contentnode_id := pyDictGet source_copy_id_map mapping.contentnode_id :
      TagMappingNew })
  (step.2.1, mappings_to_create)

theorem mapM_except_error {α β : Type} (g : α → Except PyErr β) (l : List α)
    (x : α) (hx : x ∈ l) (he : ∃ e, g x = Except.error e) :
    ∃ e, l.mapM g = Except.error e := by
  induction l with
  | nil => exact absurd hx (List.not_mem_nil x)
  | cons a as ih =>
    rw [List.mapM_cons]
    rcases List.mem_cons.mp hx with rfl | hmem
    · obtain ⟨e, he⟩ := he
      exact ⟨e, by rw [he]; rfl⟩
    · cases hga : g a with
      | error e => exact ⟨e, rfl⟩
      | ok b =>
        obtain ⟨e, hmap⟩ := ih hmem
        refine ⟨e, ?_⟩
        show List.mapM g as >>= _ = Except.error e
        rw [hmap]
        rfl

/-- C7 counterexample — the claim says every dependent-record copy operation
raises on a source node id missing from the old-to-new id map.  The tag
association copy does not: with an empty map and one association row it
completes normally and writes an association row whose node reference is
`None` (because `_copy_tags` uses the non-raising `source_copy_id_map.get`). -/
theorem copy_tags_missing_id_writes_none_row :
    copy_tags [] [⟨5, 9⟩] [] [] (fun n => n) = ([], [⟨5, none⟩]) := rfl

/-- C7 (amended) — a source node id absent from the old-to-new id map is
fatal (a raising subscript) in `_copy_files` and `_copy_assessment_items`;
`_copy_tags`, however, does not raise: it looks the node id up with
`dict.get` and writes the association row with a `None` node reference. -/
theorem dependent_copy_missing_id_behaviour :
    (∀ (idMap : List (Nat × Nat)) (files : List FileRec) (f : FileRec),
        f ∈ files → pyDictGet idMap f.contentnode_id = none →
        ∃ e, copy_files idMap files = Except.error e) ∧
    (∀ (idMap : List (Nat × Nat)) (items : List AssessmentItemRec)
        (afiles : List AssessmentFileRec) (freshIds : Nat → Nat)
        (ai : AssessmentItemRec), ai ∈ items →
        pyDictGet idMap ai.contentnode_id = none →
        ∃ e, copy_assessment_items idMap items afiles freshIds = Except.error e) ∧
    (∀ (idMap : List (Nat × Nat)) (mappings : List TagMappingRec)
        (tags : List TagRec) (existing : List (String × Nat))
        (freshTags : Nat → Nat) (mapping : TagMappingRec),
        mapping ∈ mappings →
        pyDictGet idMap mapping.contentnode_id = none →
        ∃ row ∈ (copy_tags idMap mappings tags existing freshTags).2,
          row.contentnode_id = none) := by
  refine ⟨?_, ?_, ?_⟩
  · intro idMap files f hf hmiss
    unfold copy_files
    apply mapM_except_error _ _ f hf
    refine ⟨.keyError "contentnode_id", ?_⟩
    show pyDictSubscript idMap f.contentnode_id "contentnode_id" >>= _ = _
    unfold pyDictSubscript
    rw [hmiss]
    rfl
  · intro idMap items afiles freshIds ai hai hmiss
    have herr : ∃ e,
        (do
          let newNodeId ← pyDictSubscript idMap ai.contentnode_id "contentnode_id"
          pure ({ ai with contentnode_id := newNodeId }, ai.id) :
            Except PyErr (AssessmentItemRec × Nat)) = Except.error e := by
      refine ⟨.keyError "contentnode_id", ?_⟩
      show pyDictSubscript idMap ai.contentnode_id "contentnode_id" >>= _ = _
      unfold pyDictSubscript
      rw [hmiss]
      rfl
    obtain ⟨e, hmap⟩ := mapM_except_error
      (fun ai => do
        let newNodeId ← pyDictSubscript idMap ai.contentnode_id "contentnode_id"
        pure ({ ai with contentnode_id := newNodeId }, ai.id))
      items ai hai herr
    refine ⟨e, ?_⟩
    unfold copy_assessment_items
    rw [hmap]
    rfl
  · intro idMap mappings tags existing freshTags mapping hmem hmiss
    simp only [copy_tags]
    refine ⟨_, List.mem_map_of_mem _ hmem, ?_⟩
    exact hmiss

/-- Witness for the amended C7 at concrete inputs: with an empty id map, the
file copy and assessment-item copy raise, while the tag association copy
yields a row with a `None` node reference. -/
theorem dependent_copy_missing_id_behaviour_witness :
    (∃ e, copy_files [] [⟨some 1, 42⟩] = Except.error e) ∧
    (∃ e, copy_assessment_items [] [⟨3, 42, "q"⟩] [] (fun n => n) =
        Except.error e) ∧
    (∃ row ∈ (copy_tags [] [⟨5, 9⟩] [] [] (fun n => n)).2,
        row.contentnode_id = none) :=
  ⟨dependent_copy_missing_id_behaviour.1 [] [⟨some 1, 42⟩] ⟨some 1, 42⟩
      (by simp) rfl,
   dependent_copy_missing_id_behaviour.2.1 [] [⟨3, 42, "q"⟩] [] (fun n => n)
      ⟨3, 42, "q"⟩ (by simp) rfl,
   dependent_copy_missing_id_behaviour.2.2 [] [⟨5, 9⟩] [] [] (fun n => n)
      ⟨5, 9⟩ (by simp) rfl⟩

/-! ### Subtree Cloner: `get_source_attributes` and `_clone_node` (lines 226-285) -/

/-- The fields of a source `ContentNode` row read by the cloning code,
together with the MPTT fields used by the copy orchestrator.  Identifier-like
values (`id`, `node_id`, channel ids) are modelled as naturals. -/
structure SrcNodeData where
  id : Nat
  node_id : Nat
  parent_id : Option Nat
  kind_id : String
  lft : Nat
  rght : Nat
  aggregator : Option String
  original_channel_id : Option Nat
  original_source_node_id : Option Nat
  freeze_authoring_data : Bool
  content_id : String
  title : String
  description : String
  language_id : Option String
  license_id : Option String
  license_description : Option String
  thumbnail_encoding : Option String
  extra_fields : Option String
  copyright_holder : Option String
  author : Option String
  provider : Option String
  role_visibility : String
  deriving Repr, DecidableEq

/-- The attribute dict built by `get_source_attributes` (lines 226-245):
the attributes propagated both on copy and on sync-with-source. -/
structure SourceAttributes where
  content_id : String
  kind_id : String
  title : String
  description : String
  language_id : Option String
  license_id : Option String
  license_description : Option String
  thumbnail_encoding : Option String
  extra_fields : Option String
  copyright_holder : Option String
  author : Option String
  provider : Option String
  role_visibility : String
  deriving Repr, DecidableEq

/-- Embeds `get_source_attributes` (lines 226-245). -/
def get_source_attributes (source : SrcNodeData) : SourceAttributes :=
  { content_id := source.content_id,
    kind_id := source.kind_id,
    title := source.title,
    description := source.description,
    language_id := source.language_id,
    license_id := source.license_id,
    license_description := source.license_description,
    thumbnail_encoding := source.thumbnail_encoding,
    extra_fields := source.extra_fields,
    copyright_holder := source.copyright_holder,
    author := source.author,
    provider := source.provider,
    role_visibility := source.role_visibility }

/-- The `copy` dict built by `_clone_node` (lines 247-285): the 12 keys of the
initial literal plus the 13 keys merged in from `get_source_attributes`. -/
structure CloneRecord where
  id : Nat
  node_id : Nat
  aggregator : Option String
  cloned_source : Nat
  source_channel_id : Option Nat
  source_node_id : Nat
  original_channel_id : Option Nat
  original_source_node_id : Option Nat
  freeze_authoring_data : Bool
  changed : Bool
  published : Bool
  parent_id : Option Nat
  content_id : String
  kind_id : String
  title : String
  description : String
  language_id : Option String
  license_id : Option String
  license_description : Option String
  thumbnail_encoding : Option String
  extra_fields : Option String
  copyright_holder : Option String
  author : Option String
  provider : Option String
  role_visibility : String
  deriving Repr, DecidableEq

/-- A caller-supplied `mods` dict: a sparse patch over the clone dict's keys
(`dict.update` semantics — a present key replaces the default). -/
structure CloneMods where
  id : Option Nat := none
  node_id : Option Nat := none
  aggregator : Option (Option String) := none
  cloned_source : Option Nat := none
  source_channel_id : Option (Option Nat) := none
  source_node_id : Option Nat := none
  original_channel_id : Option (Option Nat) := none
  original_source_node_id : Option (Option Nat) := none
  freeze_authoring_data : Option Bool := none
  changed : Option Bool := none
  published : Option Bool := none
  parent_id : Option (Option Nat) := none
  content_id : Option String := none
  kind_id : Option String := none
  title : Option String := none
  description : Option String := none
  language_id : Option (Option String) := none
  license_id : Option (Option String) := none
  license_description : Option (Option String) := none
  thumbnail_encoding : Option (Option String) := none
  extra_fields : Option (Option String) := none
  copyright_holder : Option (Option String) := none
  author : Option (Option String) := none
  provider : Option (Option String) := none
  role_visibility : Option String := none
  deriving Repr, DecidableEq

/-- `copy.update(mods)` (line 269): every key present in `mods` overwrites
the corresponding entry of the clone dict. -/
def applyMods (c : CloneRecord) (m : CloneMods) : CloneRecord :=
  { id := m.id.getD c.id,
    node_id := m.node_id.getD c.node_id,
    aggregator := m.aggregator.getD c.aggregator,
    cloned_source := m.cloned_source.getD c.cloned_source,
    source_channel_id := m.source_channel_id.getD c.source_channel_id,
    source_node_id := m.source_node_id.getD c.source_node_id,
    original_channel_id := m.original_channel_id.getD c.original_channel_id,
    original_source_node_id :=
      m.original_source_node_id.getD c.original_source_node_id,
    freeze_authoring_data := m.freeze_authoring_data.getD c.freeze_authoring_data,
    changed := m.changed.getD c.changed,
    published := m.published.getD c.published,
    parent_id := m.parent_id.getD c.parent_id,
    content_id := m.content_id.getD c.content_id,
    kind_id := m.kind_id.getD c.kind_id,
    title := m.title.getD c.title,
    description := m.description.getD c.description,
    language_id := m.language_id.getD c.language_id,
    license_id := m.license_id.getD c.license_id,
    license_description := m.license_description.getD c.license_description,
    thumbnail_encoding := m.thumbnail_encoding.getD c.thumbnail_encoding,
    extra_fields := m.extra_fields.getD c.extra_fields,
    copyright_holder := m.copyright_holder.getD c.copyright_holder,
    author := m.author.getD c.author,
    provider := m.provider.getD c.provider,
    role_visibility := m.role_visibility.getD c.role_visibility }

/-- Result of `source.get_original_node()` together with that node's channel.
These collaborator methods live in `contentcuration/models.py`, outside the
embedded module, so they are supplied as an oracle keyed by source id:
`channel_id` models `original_channel.id if original_channel else None` and
`node_id` the original node's `node_id`. -/
structure OrigInfo where
  channel_id : Option Nat
  node_id : Nat
  deriving Repr, DecidableEq

/-- `uuid4().hex` modelled by a counter supply: returns the fresh value and
the advanced supply. -/
def uuid4 (supply : Nat) : Nat × Nat :=
  (supply, supply + 1)

/-- The legacy backfill at the end of `_clone_node` (lines 271-284): if —
after the mods were merged — either provenance field is `None`, resolve the
original node and fill in exactly the fields that are `None`. -/
def fixupProvenance (copy : CloneRecord) (original_node : OrigInfo) : CloneRecord :=
  if copy.original_channel_id = none ∨ copy.original_source_node_id = none then
    let c1 := if copy.original_channel_id = none
      then { copy with original_channel_id := original_node.channel_id }
      else copy
    if c1.original_source_node_id = none
      then { c1 with original_source_node_id := some original_node.node_id }
      else c1
  else copy

/-- Embeds `_clone_node` (lines 247-285).  The id is `pk or uuid4().hex`
(a fresh id only when no pk is supplied), `node_id` is always fresh,
`freeze_authoring_data` is `not can_edit_source_channel or source.freeze...`
(a `None` permission freezes), the source attributes are merged in, then the
mods dict is merged last, and finally the legacy provenance backfill runs. -/
def clone_node (source : SrcNodeData) (parent_id : Option Nat)
    (source_channel_id : Option Nat) (can_edit_source_channel : Option Bool)
    (pk : Option Nat) (mods : Option CloneMods) (orig : Nat → OrigInfo)
    (supply : Nat) : CloneRecord × Nat :=
  let idSupply := match pk with
    | some p => (p, supply)
    | none => uuid4 supply
  let nodeIdSupply := uuid4 idSupply.2
  let attrs := get_source_attributes source
  let copy : CloneRecord :=
    { id := idSupply.1,
      node_id := nodeIdSupply.1,
      aggregator := source.aggregator,
      cloned_source := source.id,
      source_channel_id := source_channel_id,
      source_node_id := source.node_id,
      original_channel_id := source.original_channel_id,
      original_source_node_id := source.original_source_node_id,
      freeze_authoring_data :=
        !(can_edit_source_channel.getD false) || source.freeze_authoring_data,
      changed := true,
      published := false,
      parent_id := parent_id,
      content_id := attrs.content_id,
      kind_id := attrs.kind_id,
      title := attrs.title,
      description := attrs.description,
      language_id := attrs.language_id,
      license_id := attrs.license_id,
      license_description := attrs.license_description,
      thumbnail_encoding := attrs.thumbnail_encoding,
      extra_fields := attrs.extra_fields,
      copyright_holder := attrs.copyright_holder,
      author := attrs.author,
      provider := attrs.provider,
      role_visibility := attrs.role_visibility }
  let copy := match mods with
    | some m => applyMods copy m
    | none => copy
  (fixupProvenance copy (orig source.id), nodeIdSupply.2)

/-- The provenance backfill rewrites exactly the two provenance fields, each
only when it is `None` after the overrides. -/
theorem fixupProvenance_eq (c : CloneRecord) (o : OrigInfo) :
    fixupProvenance c o =
      { c with
        original_channel_id :=
          if c.original_channel_id = none then o.channel_id
          else c.original_channel_id,
        original_source_node_id :=
          if c.original_source_node_id = none then some o.node_id
          else c.original_source_node_id } := by
  unfold fixupProvenance
  by_cases h1 : c.original_channel_id = none <;>
    by_cases h2 : c.original_source_node_id = none <;>
    simp [h1, h2]

/-- C9 counterexample — the claim says every key present in the overrides
ends up in the clone with exactly the override's value.  Overriding
`original_channel_id` with `None` does not stick: the legacy backfill (which
runs after `copy.update(mods)`) sees the `None` and replaces it with the
original node's channel id (`7` here), so the returned record does not carry
the override's value. -/
theorem clone_node_override_backfilled_cex :
    ((({ original_channel_id := some none : CloneMods }).original_channel_id
        = some (none : Option Nat)) ∧
     (clone_node
        { id := 1, node_id := 2, parent_id := none, kind_id := "topic",
          lft := 1, rght := 2, aggregator := none,
          original_channel_id := some 5, original_source_node_id := some 6,
          freeze_authoring_data := false, content_id := "c", title := "t",
          description := "d", language_id := none, license_id := none,
          license_description := none, thumbnail_encoding := none,
          extra_fields := none, copyright_holder := none, author := none,
          provider := none, role_visibility := "learner" }
        none none (some true) none
        (some { original_channel_id := some none })
        (fun _ => ⟨some 7, 99⟩) 0).1.original_channel_id = some 7) :=
  ⟨rfl, rfl⟩

/-- C9 (amended) — caller-supplied overrides are applied last and win over
every default, with one exception forced by the legacy backfill: for the two
provenance keys `original_channel_id` and `original_source_node_id` an
override only sticks when its value is not `None` (a `None` value is
backfilled from the original node after the overrides are merged).  Every
conjunct states: if the key is present in the mods dict (with a non-`None`
value for the two provenance keys), the returned clone carries exactly the
override's value. -/
theorem clone_node_overrides_win
    (source : SrcNodeData) (parent_id : Option Nat)
    (source_channel_id : Option Nat) (can_edit : Option Bool)
    (pk : Option Nat) (m : CloneMods) (orig : Nat → OrigInfo) (supply : Nat) :
    ((∀ x, m.id = some x →
      (clone_node source parent_id source_channel_id can_edit pk (some m) orig supply).1.id = x) ∧
     (∀ x, m.node_id = some x →
      (clone_node source parent_id source_channel_id can_edit pk (some m) orig supply).1.node_id = x) ∧
     (∀ x, m.aggregator = some x →
      (clone_node source parent_id source_channel_id can_edit pk (some m) orig supply).1.aggregator = x) ∧
     (∀ x, m.cloned_source = some x →
      (clone_node source parent_id source_channel_id can_edit pk (some m) orig supply).1.cloned_source = x) ∧
     (∀ x, m.source_channel_id = some x →
      (clone_node source parent_id source_channel_id can_edit pk (some m) orig supply).1.source_channel_id = x) ∧
     (∀ x, m.source_node_id = some x →
      (clone_node source parent_id source_channel_id can_edit pk (some m) orig supply).1.source_node_id = x) ∧
     (∀ x, m.original_channel_id = some x → x ≠ none →
      (clone_node source parent_id source_channel_id can_edit pk (some m) orig supply).1.original_channel_id = x) ∧
     (∀ x, m.original_source_node_id = some x → x ≠ none →
      (clone_node source parent_id source_channel_id can_edit pk (some m) orig supply).1.original_source_node_id = x) ∧
     (∀ x, m.freeze_authoring_data = some x →
      (clone_node source parent_id source_channel_id can_edit pk (some m) orig supply).1.freeze_authoring_data = x) ∧
     (∀ x, m.changed = some x →
      (clone_node source parent_id source_channel_id can_edit pk (some m) orig supply).1.changed = x) ∧
     (∀ x, m.published = some x →
      (clone_node source parent_id source_channel_id can_edit pk (some m) orig supply).1.published = x) ∧
     (∀ x, m.parent_id = some x →
      (clone_node source parent_id source_channel_id can_edit pk (some m) orig supply).1.parent_id = x) ∧
     (∀ x, m.content_id = some x →
      (clone_node source parent_id source_channel_id can_edit pk (some m) orig supply).1.content_id = x) ∧
     (∀ x, m.kind_id = some x →
      (clone_node source parent_id source_channel_id can_edit pk (some m) orig supply).1.kind_id = x) ∧
     (∀ x, m.title = some x →
      (clone_node source parent_id source_channel_id can_edit pk (some m) orig supply).1.title = x) ∧
     (∀ x, m.description = some x →
      (clone_node source parent_id source_channel_id can_edit pk (some m) orig supply).1.description = x) ∧
     (∀ x, m.language_id = some x →
      (clone_node source parent_id source_channel_id can_edit pk (some m) orig supply).1.language_id = x) ∧
     (∀ x, m.license_id = some x →
      (clone_node source parent_id source_channel_id can_edit pk (some m) orig supply).1.license_id = x) ∧
     (∀ x, m.license_description = some x →
      (clone_node source parent_id source_channel_id can_edit pk (some m) orig supply).1.license_description = x) ∧
     (∀ x, m.thumbnail_encoding = some x →
      (clone_node source parent_id source_channel_id can_edit pk (some m) orig supply).1.thumbnail_encoding = x) ∧
     (∀ x, m.extra_fields = some x →
      (clone_node source parent_id source_channel_id can_edit pk (some m) orig supply).1.extra_fields = x) ∧
     (∀ x, m.copyright_holder = some x →
      (clone_node source parent_id source_channel_id can_edit pk (some m) orig supply).1.copyright_holder = x) ∧
     (∀ x, m.author = some x →
      (clone_node source parent_id source_channel_id can_edit pk (some m) orig supply).1.author = x) ∧
     (∀ x, m.provider = some x →
      (clone_node source parent_id source_channel_id can_edit pk (some m) orig supply).1.provider = x) ∧
     (∀ x, m.role_visibility = some x →
      (clone_node source parent_id source_channel_id can_edit pk (some m) orig supply).1.role_visibility = x)) := by
  refine ⟨?_, ?_, ?_, ?_, ?_, ?_, ?_, ?_, ?_, ?_, ?_, ?_, ?_, ?_, ?_, ?_, ?_,
    ?_, ?_, ?_, ?_, ?_, ?_, ?_, ?_⟩ <;>
    intro x hx <;>
    first
    | (intro hne
       simp [clone_node, fixupProvenance_eq, applyMods, get_source_attributes,
         uuid4, hx, hne])
    | (simp [clone_node, fixupProvenance_eq, applyMods, get_source_attributes,
         uuid4, hx])

/-- Witness for the amended C9: a concrete clone call where the mods dict
overrides the title and (with a non-`None` value) the original channel id;
both overrides end up verbatim in the clone. -/
theorem clone_node_overrides_win_witness :
    ((clone_node
        { id := 1, node_id := 2, parent_id := none, kind_id := "video",
          lft := 1, rght := 2, aggregator := none,
          original_channel_id := some 5, original_source_node_id := some 6,
          freeze_authoring_data := false, content_id := "c", title := "t",
          description := "d", language_id := none, license_id := none,
          license_description := none, thumbnail_encoding := none,
          extra_fields := none, copyright_holder := none, author := none,
          provider := none, role_visibility := "learner" }
        none none (some true) none
        (some { title := some "override", original_channel_id := some (some 9) })
        (fun _ => ⟨some 7, 99⟩) 0).1.title = "override") ∧
    ((clone_node
        { id := 1, node_id := 2, parent_id := none, kind_id := "video",
          lft := 1, rght := 2, aggregator := none,
          original_channel_id := some 5, original_source_node_id := some 6,
          freeze_authoring_data := false, content_id := "c", title := "t",
          description := "d", language_id := none, license_id := none,
          license_description := none, thumbnail_encoding := none,
          extra_fields := none, copyright_holder := none, author := none,
          provider := none, role_visibility := "learner" }
        none none (some true) none
        (some { title := some "override", original_channel_id := some (some 9) })
        (fun _ => ⟨some 7, 99⟩) 0).1.original_channel_id = some 9) :=
  ⟨(clone_node_overrides_win _ none none (some true) none
      { title := some "override", original_channel_id := some (some 9) }
      (fun _ => ⟨some 7, 99⟩) 0).2.2.2.2.2.2.2.2.2.2.2.2.2.2.1 "override" rfl,
   (clone_node_overrides_win _ none none (some true) none
      { title := some "override", original_channel_id := some (some 9) }
      (fun _ => ⟨some 7, 99⟩) 0).2.2.2.2.2.2.1 (some 9) rfl (by simp)⟩

/-! ### `build_tree_nodes` (lines 616-662): the in-memory clone tree and its
coordinate layout -/

/-- The nested `data` dict handed to `build_tree_nodes`: a clone record plus
a `children` key holding the recursively built child dicts (as produced by
`_recurse_to_create_tree`). -/
inductive CloneTree where
  | node (rec : CloneRecord) (children : List CloneTree)

def CloneTree.rec' : CloneTree → CloneRecord
  | .node r _ => r

def CloneTree.children : CloneTree → List CloneTree
  | .node _ cs => cs

mutual
/-- Number of nodes in a clone tree. -/
def cloneSize : CloneTree → Nat
  | .node _ cs => 1 + cloneSizeF cs
/-- Number of nodes in a clone forest. -/
def cloneSizeF : List CloneTree → Nat
  | [] => 0
  | c :: rest => cloneSize c + cloneSizeF rest
end

/-- A model instance as built by `build_tree_nodes`'s `treeify`: the clone
record plus the assigned `tree_id`, `level`, `lft` and `rght`. -/
inductive AnnTree where
  | node (rec : CloneRecord) (tree_id level lft rght : Nat)
      (children : List AnnTree)

def AnnTree.rec' : AnnTree → CloneRecord
  | .node r _ _ _ _ _ => r

def AnnTree.tree_id : AnnTree → Nat
  | .node _ t _ _ _ _ => t

def AnnTree.level : AnnTree → Nat
  | .node _ _ l _ _ _ => l

def AnnTree.lft : AnnTree → Nat
  | .node _ _ _ l _ _ => l

def AnnTree.rght : AnnTree → Nat
  | .node _ _ _ _ r _ => r

def AnnTree.children : AnnTree → List AnnTree
  | .node _ _ _ _ _ cs => cs

mutual
/-- The annotated nodes of a laid-out tree in `stack` order (the node is
appended before its children are processed, i.e. preorder). -/
def annFlatten : AnnTree → List AnnTree
  | .node r t l lf rg cs => .node r t l lf rg cs :: annFlattenF cs
def annFlattenF : List AnnTree → List AnnTree
  | [] => []
  | c :: rest => annFlatten c ++ annFlattenF rest
end

mutual
/-- Embeds the recursive `treeify` closure (lines 643-655): assign `lft` on
entry (`cursor`), recurse into the children threading the cursor (each child
is entered at `cursor + 1` with `level + 1`), then assign `rght = cursor + 1`
on exit and return it as the new cursor. -/
def treeify (tree_id : Nat) : CloneTree → Nat → Nat → AnnTree × Nat
  | .node r cs, cursor, level =>
    let rc := treeifyChildren tree_id cs cursor level
    (.node r tree_id level cursor (rc.2 + 1) rc.1, rc.2 + 1)
/-- The `for child in children: cursor = treeify(child, cursor + 1, level + 1)`
loop, returning the laid-out children and the final cursor. -/
def treeifyChildren (tree_id : Nat) : List CloneTree → Nat → Nat → List AnnTree × Nat
  | [], cursor, _ => ([], cursor)
  | c :: rest, cursor, level =>
    let r1 := treeify tree_id c (cursor + 1) (level + 1)
    let r2 := treeifyChildren tree_id rest r1.2 level
    (r1.1 :: r2.1, r2.2)
end

/-- The target coordinates read by `build_tree_nodes`. -/
structure TargetMptt where
  tree_id : Nat
  lft : Nat
  rght : Nat
  level : Nat
  deriving Repr, DecidableEq

/-- The cursor/level start chosen from the target and position
(lines 622-635). -/
def startCursorLevel (target : TargetMptt) (position : String) : Nat × Nat :=
  if position = "left" ∨ position = "right" then
    if position = "left" then (target.lft, target.level)
    else (target.rght + 1, target.level)
  else
    if position = "first-child" then (target.lft + 1, target.level + 1)
    else (target.rght, target.level + 1)

/-- Embeds `build_tree_nodes` (lines 616-662).  With a target, the tree id
and the starting cursor/level come from the target's coordinates; without
one, a fresh tree id is issued (`freshTreeId` models `_get_next_tree_id`) and
the layout starts at `cursor = 1`, `level = 0`.  Returns the laid-out tree
(whose preorder flattening is the returned `stack`) and the final cursor.
The subsequent `_create_space` call shifts pre-existing rows of the target
tree and does not affect the produced nodes. -/
def build_tree_nodes (data : CloneTree) (target : Option TargetMptt)
    (position : String) (freshTreeId : Nat) : AnnTree × Nat :=
  match target with
  | some tg =>
    let cl := startCursorLevel tg position
    treeify tg.tree_id data cl.1 cl.2
  | none => treeify freshTreeId data 1 0

mutual
theorem treeify_final (tid : Nat) (t : CloneTree) (c l : Nat) :
    (treeify tid t c l).2 + 1 = c + 2 * cloneSize t :=
  match t with
  | .node r cs => by
    have h := treeifyChildren_final tid cs c l
    simp only [treeify, cloneSize]
    omega
theorem treeifyChildren_final (tid : Nat) (cs : List CloneTree) (c l : Nat) :
    (treeifyChildren tid cs c l).2 = c + 2 * cloneSizeF cs :=
  match cs with
  | [] => by simp [treeifyChildren, cloneSizeF]
  | x :: rest => by
    have h1 := treeify_final tid x (c + 1) (l + 1)
    have h2 := treeifyChildren_final tid rest
      (treeify tid x (c + 1) (l + 1)).2 l
    simp only [treeifyChildren, cloneSizeF]
    omega
end

theorem self_mem_annFlatten (t : AnnTree) : t ∈ annFlatten t := by
  cases t
  simp [annFlatten]

theorem mem_annFlattenF_of_mem (ats : List AnnTree) (a : AnnTree)
    (ha : a ∈ ats) : a ∈ annFlattenF ats := by
  induction ats with
  | nil => cases ha
  | cons x rest ih =>
    simp only [annFlattenF, List.mem_append]
    rcases List.mem_cons.mp ha with rfl | h
    · exact Or.inl (self_mem_annFlatten a)
    · exact Or.inr (ih h)

theorem lft_node (r : CloneRecord) (t l lf rg : Nat) (cs : List AnnTree) :
    (AnnTree.node r t l lf rg cs).lft = lf := rfl

theorem rght_node (r : CloneRecord) (t l lf rg : Nat) (cs : List AnnTree) :
    (AnnTree.node r t l lf rg cs).rght = rg := rfl

theorem level_node (r : CloneRecord) (t l lf rg : Nat) (cs : List AnnTree) :
    (AnnTree.node r t l lf rg cs).level = l := rfl

theorem children_node (r : CloneRecord) (t l lf rg : Nat) (cs : List AnnTree) :
    (AnnTree.node r t l lf rg cs).children = cs := rfl

/-- Two laid-out nodes in `stack` (preorder) order: the later one is either
strictly inside the earlier one or entirely to its right — intervals are
properly nested with no partial overlaps. -/
def annRel (a b : AnnTree) : Prop :=
  a.lft < b.lft ∧ (b.rght < a.rght ∨ a.rght < b.lft)

/-- Per-node coordinate invariants of a laid-out node: a positive odd span,
a leaf spans exactly one unit, and each child sits one level deeper with an
interval strictly inside the parent's. -/
def annNodeOk (n : AnnTree) : Prop :=
  n.lft < n.rght ∧ Odd (n.rght - n.lft) ∧
  (n.children = [] → n.rght = n.lft + 1) ∧
  (∀ ch ∈ n.children, ch.level = n.level + 1 ∧ n.lft < ch.lft ∧ ch.rght < n.rght)

mutual
theorem treeify_master (tid : Nat) (t : CloneTree) (c l : Nat) :
    (treeify tid t c l).1.lft = c ∧
    (treeify tid t c l).1.level = l ∧
    (treeify tid t c l).1.rght = (treeify tid t c l).2 ∧
    c < (treeify tid t c l).2 ∧
    (∀ n ∈ annFlatten (treeify tid t c l).1,
      c ≤ n.lft ∧ n.rght ≤ (treeify tid t c l).2 ∧ annNodeOk n) ∧
    List.Pairwise annRel (annFlatten (treeify tid t c l).1) :=
  match t with
  | .node r cs => by
    obtain ⟨hc_le, hroots, hempty, hnodes, hpair⟩ :=
      treeifyChildren_master tid cs c l
    have hf := treeifyChildren_final tid cs c l
    refine ⟨?_, ?_, ?_, ?_, ?_, ?_⟩
    · simp [treeify, lft_node]
    · simp [treeify, level_node]
    · simp [treeify, rght_node]
    · simp only [treeify]
      omega
    · intro n hn
      simp only [treeify, annFlatten] at hn ⊢
      rcases List.mem_cons.mp hn with rfl | hmem
      · simp only [annNodeOk, lft_node, rght_node, level_node, children_node]
        refine ⟨by omega, by omega, by omega,
          Nat.odd_iff.mpr (by omega), ?_, ?_⟩
        · intro h
          have := hempty h
          omega
        · intro ch hch
          obtain ⟨hlvl, hlt, hle⟩ := hroots ch hch
          exact ⟨hlvl, hlt, by omega⟩
      · obtain ⟨hge, hle, hok⟩ := hnodes n hmem
        exact ⟨by omega, by omega, hok⟩
    · simp only [treeify, annFlatten]
      rw [List.pairwise_cons]
      refine ⟨?_, hpair⟩
      intro b hb
      obtain ⟨hge, hle, _⟩ := hnodes b hb
      refine ⟨?_, Or.inl ?_⟩ <;>
        simp only [lft_node, rght_node] <;> omega
theorem treeifyChildren_master (tid : Nat) (cs : List CloneTree) (c l : Nat) :
    c ≤ (treeifyChildren tid cs c l).2 ∧
    (∀ a ∈ (treeifyChildren tid cs c l).1, a.level = l + 1 ∧
        c < a.lft ∧ a.rght ≤ (treeifyChildren tid cs c l).2) ∧
    ((treeifyChildren tid cs c l).1 = [] → (treeifyChildren tid cs c l).2 = c) ∧
    (∀ n ∈ annFlattenF (treeifyChildren tid cs c l).1,
      c + 1 ≤ n.lft ∧ n.rght ≤ (treeifyChildren tid cs c l).2 ∧ annNodeOk n) ∧
    List.Pairwise annRel (annFlattenF (treeifyChildren tid cs c l).1) :=
  match cs with
  | [] => by
    simp [treeifyChildren, annFlattenF]
  | x :: rest => by
    obtain ⟨h1lft, h1lvl, h1rght, h1lt, h1nodes, h1pair⟩ :=
      treeify_master tid x (c + 1) (l + 1)
    obtain ⟨h2le, h2roots, h2empty, h2nodes, h2pair⟩ :=
      treeifyChildren_master tid rest (treeify tid x (c + 1) (l + 1)).2 l
    refine ⟨?_, ?_, ?_, ?_, ?_⟩
    · simp only [treeifyChildren]
      omega
    · intro a ha
      simp only [treeifyChildren] at ha ⊢
      rcases List.mem_cons.mp ha with rfl | hmem
      · exact ⟨h1lvl, by omega, by omega⟩
      · obtain ⟨hlvl, hlt, hle⟩ := h2roots a hmem
        exact ⟨hlvl, by omega, hle⟩
    · simp only [treeifyChildren]
      intro h
      exact absurd h (List.cons_ne_nil _ _)
    · intro n hn
      simp only [treeifyChildren, annFlattenF] at hn ⊢
      rcases List.mem_append.mp hn with hmem | hmem
      · obtain ⟨hge, hle, hok⟩ := h1nodes n hmem
        exact ⟨hge, by omega, hok⟩
      · obtain ⟨hge, hle, hok⟩ := h2nodes n hmem
        exact ⟨by omega, hle, hok⟩
    · simp only [treeifyChildren, annFlattenF]
      rw [List.pairwise_append]
      refine ⟨h1pair, h2pair, ?_⟩
      intro a ha b hb
      obtain ⟨hage, hale, haok⟩ := h1nodes a ha
      obtain ⟨hbge, hble, hbok⟩ := h2nodes b hb
      have halr := haok.1
      exact ⟨by omega, Or.inr (by omega)⟩
end

/-- C5 — every clone tree laid out by `build_tree_nodes` satisfies the
nested-set invariants: every node's span `rght - lft` is positive and odd, a
leaf has `rght = lft + 1`, every child sits at its parent's level plus one
with its interval strictly inside the parent's, the intervals of the produced
nodes are properly nested with no partial overlaps, and when there is no
target the root starts at `lft = 1`, `level = 0` (on a fresh tree id). -/
theorem build_tree_nodes_invariants (data : CloneTree)
    (target : Option TargetMptt) (position : String) (freshTreeId : Nat) :
    (∀ n ∈ annFlatten (build_tree_nodes data target position freshTreeId).1,
      n.lft < n.rght ∧ Odd (n.rght - n.lft) ∧
      (n.children = [] → n.rght = n.lft + 1) ∧
      (∀ ch ∈ n.children,
        ch.level = n.level + 1 ∧ n.lft < ch.lft ∧ ch.rght < n.rght)) ∧
    List.Pairwise annRel
      (annFlatten (build_tree_nodes data target position freshTreeId).1) ∧
    (target = none →
      (build_tree_nodes data target position freshTreeId).1.lft = 1 ∧
      (build_tree_nodes data target position freshTreeId).1.level = 0) := by
  cases target with
  | none =>
    obtain ⟨hlft, hlvl, _, _, hnodes, hpair⟩ :=
      treeify_master freshTreeId data 1 0
    refine ⟨?_, ?_, ?_⟩
    · intro n hn
      simp only [build_tree_nodes] at hn
      exact (hnodes n hn).2.2
    · simp only [build_tree_nodes]
      exact hpair
    · intro h
      simp only [build_tree_nodes]
      exact ⟨hlft, hlvl⟩
  | some tg =>
    obtain ⟨hlft, hlvl, _, _, hnodes, hpair⟩ :=
      treeify_master tg.tree_id data (startCursorLevel tg position).1
        (startCursorLevel tg position).2
    refine ⟨?_, ?_, ?_⟩
    · intro n hn
      simp only [build_tree_nodes] at hn
      exact (hnodes n hn).2.2
    · simp only [build_tree_nodes]
      exact hpair
    · intro h
      cases h

/-- A minimal clone record used for concrete example trees. -/
def sampleRec : CloneRecord :=
  { id := 1, node_id := 2, aggregator := none, cloned_source := 3,
    source_channel_id := none, source_node_id := 4,
    original_channel_id := some 5, original_source_node_id := some 6,
    freeze_authoring_data := false, changed := true, published := false,
    parent_id := none, content_id := "c", kind_id := "topic", title := "t",
    description := "", language_id := none, license_id := none,
    license_description := none, thumbnail_encoding := none,
    extra_fields := none, copyright_holder := none, author := none,
    provider := none, role_visibility := "learner" }

/-- Witness for C5: a two-node clone tree laid out with no target starts at
`lft = 1`, `level = 0`. -/
theorem build_tree_nodes_invariants_witness :
    (none : Option TargetMptt) = none ∧
    (build_tree_nodes (.node sampleRec [.node sampleRec []]) none
        "last-child" 9).1.lft = 1 ∧
    (build_tree_nodes (.node sampleRec [.node sampleRec []]) none
        "last-child" 9).1.level = 0 :=
  ⟨rfl,
   ((build_tree_nodes_invariants (.node sampleRec [.node sampleRec []]) none
      "last-child" 9).2.2 rfl).1,
   ((build_tree_nodes_invariants (.node sampleRec [.node sampleRec []]) none
      "last-child" 9).2.2 rfl).2⟩

/-! ### Copy Orchestrator (lines 322-411, 540-614): source trees and the
copy algorithms -/

/-- `content_kinds.TOPIC` from `le_utils` (the container kind). -/
def TOPIC : String := "topic"

/-- A source subtree: the node's row data together with its child subtrees
(in stored sibling order). -/
inductive SrcTree where
  | node (data : SrcNodeData) (children : List SrcTree)

def SrcTree.data : SrcTree → SrcNodeData
  | .node d _ => d

def SrcTree.children : SrcTree → List SrcTree
  | .node _ cs => cs

theorem srcData_node (d : SrcNodeData) (cs : List SrcTree) :
    (SrcTree.node d cs).data = d := rfl

theorem srcChildren_node (d : SrcNodeData) (cs : List SrcTree) :
    (SrcTree.node d cs).children = cs := rfl

mutual
/-- `node.get_descendants(include_self=True)` in lft (preorder) order. -/
def flattenS : SrcTree → List SrcNodeData
  | .node d cs => d :: flattenSF cs
def flattenSF : List SrcTree → List SrcNodeData
  | [] => []
  | c :: rest => flattenS c ++ flattenSF rest
end

mutual
def treeSizeS : SrcTree → Nat
  | .node _ cs => 1 + forestSizeS cs
def forestSizeS : List SrcTree → Nat
  | [] => 0
  | c :: rest => treeSizeS c + forestSizeS rest
end

mutual
/-- All subtrees of a tree (including itself), in preorder. -/
def subtreesS : SrcTree → List SrcTree
  | .node d cs => SrcTree.node d cs :: subtreesSF cs
def subtreesSF : List SrcTree → List SrcTree
  | [] => []
  | c :: rest => subtreesS c ++ subtreesSF rest
end

mutual
/-- The subtrees rooted at nodes whose `node_id` is among `keys`: this is
`self.filter(node_id__in=keys)` followed by `get_descendants(include_self=True)`,
keeping each matching root with its whole subtree. -/
def subtreesMatching (keys : List Nat) : SrcTree → List SrcTree
  | .node d cs =>
    (if d.node_id ∈ keys then [SrcTree.node d cs] else []) ++
      subtreesMatchingF keys cs
def subtreesMatchingF (keys : List Nat) : List SrcTree → List SrcTree
  | [] => []
  | c :: rest => subtreesMatching keys c ++ subtreesMatchingF keys rest
end

/-- The rows removed by the queryset difference in `_all_nodes_to_copy`: the
union of the matching subtrees' rows. -/
def excludedRecords (t : SrcTree) (keys : List Nat) : List SrcNodeData :=
  ((subtreesMatching keys t).map flattenS).flatten

/-- Embeds `_all_nodes_to_copy` (lines 322-330): the source subtree's rows
(including the root), minus — when any excluded descendants are supplied —
every row belonging to a subtree rooted at a node whose `node_id` is an
excluded key (queryset difference, i.e. row identity by primary key). -/
def all_nodes_to_copy (t : SrcTree) (excluded : List Nat) : List SrcNodeData :=
  if excluded.isEmpty then flattenS t
  else (flattenS t).filter
    (fun n => (excludedRecords t excluded).all (fun m => m.id != n.id))

mutual
/-- The subtree with every subtree rooted at an excluded `node_id` removed
(the root itself is not tested): the specification-level view of what an
exclusion-respecting copy visits. -/
def pruneT (keys : List Nat) : SrcTree → SrcTree
  | .node d cs => .node d (pruneF keys cs)
def pruneF (keys : List Nat) : List SrcTree → List SrcTree
  | [] => []
  | c :: rest =>
    (if c.data.node_id ∈ keys then [] else [pruneT keys c]) ++ pruneF keys rest
end

/-- The `nodes_by_parent` bucket for a given parent id (lines 580-585): the
nodes of `ns` whose `parent_id` is that id, in `ns` order. -/
def bucketsFor (ns : List SrcNodeData) (pid : Nat) : List SrcNodeData :=
  ns.filter (fun n => n.parent_id == some pid)

/-- Stable insertion into a sorted list by a numeric key. -/
def insertOn {α : Type} (key : α → Nat) (x : α) : List α → List α
  | [] => [x]
  | y :: ys => if key x ≤ key y then x :: y :: ys else y :: insertOn key x ys

/-- Stable sort by a numeric key: Python's `sorted(..., key=...)` and the
`order_by("lft")` queryset ordering. -/
def sortOn {α : Type} (key : α → Nat) : List α → List α
  | [] => []
  | x :: xs => insertOn key x (sortOn key xs)

mutual
/-- Embeds `_recurse_to_create_tree` (lines 287-320): clone the node, then —
when it is a topic with an entry in `nodes_by_parent` — recursively clone the
bucketed children in lft order, with the fresh clone's id as their
`parent_id` and no pk/mods.  The Python recursion has no explicit bound and
terminates because the persisted parent relation is acyclic; the embedding
makes that bound an explicit fuel argument (`none` = fuel exhausted, which
callers supply large enough to be unreachable).  The `source_copy_id_map`
side dict (consumed only by `_copy_associated_objects`, outside the claims
modelled here) is not tracked. -/
def recurse_to_create_tree (fuel : Nat) (source : SrcNodeData)
    (parent_id : Option Nat) (chid : Option Nat) (ns : List SrcNodeData)
    (can_edit : Option Bool) (pk : Option Nat) (mods : Option CloneMods)
    (orig : Nat → OrigInfo) (supply : Nat) : Option (CloneTree × Nat) :=
  match fuel with
  | 0 => none
  | f + 1 =>
    let cp := clone_node source parent_id chid can_edit pk mods orig supply
    if source.kind_id = TOPIC ∧ bucketsFor ns source.id ≠ [] then
      match recurseList f (sortOn (fun x => x.lft) (bucketsFor ns source.id))
          cp.1.id chid ns can_edit orig cp.2 with
      | none => none
      | some (cts, s) => some (.node cp.1 cts, s)
    else
      some (.node cp.1 [], cp.2)
termination_by (fuel, 0)
decreasing_by
  all_goals
    first
    | (apply Prod.Lex.left; omega)
    | (apply Prod.Lex.right; simp only [List.length_cons]; omega)

/-- The `list(map(...))` over the sorted children of one node. -/
def recurseList (fuel : Nat) (l : List SrcNodeData) (pid : Nat)
    (chid : Option Nat) (ns : List SrcNodeData) (can_edit : Option Bool)
    (orig : Nat → OrigInfo) (supply : Nat) : Option (List CloneTree × Nat) :=
  match l with
  | [] => some ([], supply)
  | x :: rest =>
    match recurse_to_create_tree fuel x (some pid) chid ns can_edit none none
        orig supply with
    | none => none
    | some r =>
      match recurseList fuel rest pid chid ns can_edit orig r.2 with
      | none => none
      | some rs => some (r.1 :: rs.1, rs.2)
termination_by (fuel, l.length + 1)
decreasing_by
  all_goals
    first
    | (apply Prod.Lex.left; omega)
    | (apply Prod.Lex.right; simp only [List.length_cons]; omega)
end

/-- Embeds `_deep_copy` (lines 566-614): gather the nodes to copy, build the
in-memory clone tree from the root record and the parent buckets, and return
it (the subsequent `build_tree_nodes` + `bulk_create` instantiate exactly
these records — their coordinate assignment is `treeify`, handled separately
— and `lock_mptt` / `increment_progress` are effects outside this data
path).  The recursion fuel is one more than the number of nodes to copy,
which the acyclic source data never exhausts. -/
def deep_copy (t : SrcTree) (targetId : Option Nat) (chid : Option Nat)
    (pk : Option Nat) (mods : Option CloneMods) (excluded : List Nat)
    (can_edit : Option Bool) (orig : Nat → OrigInfo) (supply : Nat) :
    Option (CloneTree × Nat) :=
  let nodes_to_copy := all_nodes_to_copy t excluded
  recurse_to_create_tree (nodes_to_copy.length + 1) t.data targetId chid
    nodes_to_copy can_edit pk mods orig supply

/-- One orchestrator step as observable behaviour: which strategy ran, on
which source node, into which target, at which position. -/
inductive CopyEvent where
  | deepCopy (sourceId : Nat) (targetId : Option Nat) (position : String)
  | shallowCopy (sourceId : Nat) (targetId : Option Nat) (position : String)
  deriving Repr, DecidableEq

/-- The outcome of a `_copy` call: the created nodes (as a tree, children in
creation order), the advanced id supply, and the strategy events in
execution order. -/
structure CopyOut where
  tree : CloneTree
  supply : Nat
  events : List CopyEvent

mutual
/-- Embeds `_copy` (lines 363-411).  When the source's coordinate span
`rght - lft` is strictly below the batch size (an integer comparison), one
deep copy handles the whole subtree.  Otherwise the root alone is copied
shallowly (`_shallow_copy`, lines 540-564: clone with `parent_id=None`,
insert under the target — which links the new node under the target when
the position is a child position — and save), and the orchestrator recurses
per child of the original source, in ascending lft order, skipping excluded
`node_id`s, with the fresh copy as target and position `last-child`. -/
def copyT (fuel : Nat) (t : SrcTree) (targetId : Option Nat)
    (position : String) (chid : Option Nat) (pk : Option Nat)
    (mods : Option CloneMods) (excluded : List Nat) (can_edit : Option Bool)
    (batch_size : Int) (orig : Nat → OrigInfo) (supply : Nat) :
    Option CopyOut :=
  match fuel with
  | 0 => none
  | f + 1 =>
    if (t.data.rght : Int) - (t.data.lft : Int) < batch_size then
      match deep_copy t targetId chid pk mods excluded can_edit orig supply with
      | none => none
      | some r =>
        some ⟨r.1, r.2, [.deepCopy t.data.id targetId position]⟩
    else
      let cp := clone_node t.data none chid can_edit pk mods orig supply
      let children0 := sortOn (fun c => c.data.lft) t.children
      let children := if excluded.isEmpty then children0
        else children0.filter (fun c => ¬ c.data.node_id ∈ excluded)
      match copyChildren f children cp.1.id chid excluded can_edit batch_size
          orig cp.2 with
      | none => none
      | some r =>
        some ⟨.node cp.1 r.1, r.2.1,
          .shallowCopy t.data.id targetId position :: r.2.2⟩
termination_by (fuel, 0)
decreasing_by
  all_goals
    first
    | (apply Prod.Lex.left; omega)
    | (apply Prod.Lex.right; simp only [List.length_cons]; omega)

/-- The `for child in children: self._copy(child, node_copy, "last-child",
...)` loop of the shallow branch. -/
def copyChildren (fuel : Nat) (l : List SrcTree) (newCopyId : Nat)
    (chid : Option Nat) (excluded : List Nat) (can_edit : Option Bool)
    (batch_size : Int) (orig : Nat → OrigInfo) (supply : Nat) :
    Option (List CloneTree × Nat × List CopyEvent) :=
  match l with
  | [] => some ([], supply, [])
  | c :: rest =>
    match copyT fuel c (some newCopyId) "last-child" chid none none excluded
        can_edit batch_size orig supply with
    | none => none
    | some out =>
      match copyChildren fuel rest newCopyId chid excluded can_edit batch_size
          orig out.supply with
      | none => none
      | some rs => some (out.tree :: rs.1, rs.2.1, out.events ++ rs.2.2)
termination_by (fuel, l.length + 1)
decreasing_by
  all_goals
    first
    | (apply Prod.Lex.left; omega)
    | (apply Prod.Lex.right; simp only [List.length_cons]; omega)
end

/-- The module-level default batch size (line 34). -/
def BATCH_SIZE : Int := 100

/-- Embeds `copy_node` (lines 332-361): apply the default batch size when
the caller passes `None`, compute the progress total from the nodes to copy
(`set_total`), and run `_copy`. -/
def copy_node (fuel : Nat) (t : SrcTree) (targetId : Option Nat)
    (position : String) (pk : Option Nat) (mods : Option CloneMods)
    (excluded : List Nat) (can_edit : Option Bool)
    (batch_size : Option Int) (chid : Option Nat) (orig : Nat → OrigInfo)
    (supply : Nat) : Nat × Option CopyOut :=
  let batch := batch_size.getD BATCH_SIZE
  let total_nodes := (all_nodes_to_copy t excluded).length
  (total_nodes,
   copyT fuel t targetId position chid pk mods excluded can_edit batch orig
     supply)

theorem treeSizeS_pos (t : SrcTree) : 1 ≤ treeSizeS t := by
  cases t with
  | node d cs => simp [treeSizeS]

theorem forestSizeS_children_lt (t : SrcTree) :
    forestSizeS t.children < treeSizeS t := by
  cases t with
  | node d cs =>
    simp [treeSizeS, srcChildren_node]

theorem forestSizeS_insertOn (key : SrcTree → Nat) (x : SrcTree)
    (l : List SrcTree) :
    forestSizeS (insertOn key x l) = treeSizeS x + forestSizeS l := by
  induction l with
  | nil => simp [insertOn, forestSizeS]
  | cons y ys ih =>
    by_cases h : key x ≤ key y <;> simp [insertOn, h, forestSizeS, ih] <;> omega

theorem forestSizeS_sortOn (key : SrcTree → Nat) (l : List SrcTree) :
    forestSizeS (sortOn key l) = forestSizeS l := by
  induction l with
  | nil => rfl
  | cons x xs ih => simp [sortOn, forestSizeS_insertOn, forestSizeS, ih]

theorem mem_insertOn {α : Type} (key : α → Nat) (a x : α) (l : List α) :
    x ∈ insertOn key a l ↔ x = a ∨ x ∈ l := by
  induction l with
  | nil => simp [insertOn]
  | cons y ys ih =>
    by_cases h : key a ≤ key y <;> simp [insertOn, h, ih] <;> tauto

theorem mem_sortOn {α : Type} (key : α → Nat) (x : α) (l : List α) :
    x ∈ sortOn key l ↔ x ∈ l := by
  induction l with
  | nil => simp [sortOn]
  | cons y ys ih => simp [sortOn, mem_insertOn, ih]

theorem insertOn_map {α β : Type} (keyA : α → Nat) (keyB : β → Nat)
    (f : α → β) (hkey : ∀ a, keyB (f a) = keyA a) (x : α) (l : List α) :
    insertOn keyB (f x) (l.map f) = (insertOn keyA x l).map f := by
  induction l with
  | nil => simp [insertOn]
  | cons y ys ih =>
    by_cases h : keyA x ≤ keyA y
    · simp [insertOn, hkey, h]
    · simp [insertOn, hkey, h, ih]

theorem sortOn_map {α β : Type} (keyA : α → Nat) (keyB : β → Nat)
    (f : α → β) (hkey : ∀ a, keyB (f a) = keyA a) (l : List α) :
    sortOn keyB (l.map f) = (sortOn keyA l).map f := by
  induction l with
  | nil => simp [sortOn]
  | cons y ys ih => simp [sortOn, ih, insertOn_map keyA keyB f hkey]

theorem sortOn_sorted {α : Type} (key : α → Nat) (l : List α) :
    List.Pairwise (fun a b => key a ≤ key b) (sortOn key l) := by
  induction l with
  | nil => simp [sortOn]
  | cons x xs ih =>
    have hins : ∀ (a : α) (s : List α),
        List.Pairwise (fun a b => key a ≤ key b) s →
        List.Pairwise (fun a b => key a ≤ key b) (insertOn key a s) := by
      intro a s hs
      induction s with
      | nil => simp [insertOn]
      | cons y ys ihs =>
        by_cases h : key a ≤ key y
        · rw [insertOn, if_pos h]
          refine List.pairwise_cons.mpr ⟨?_, hs⟩
          intro b hb
          rcases List.mem_cons.mp hb with rfl | hb
          · exact h
          · exact le_trans h ((List.pairwise_cons.mp hs).1 b hb)
        · rw [insertOn, if_neg h]
          obtain ⟨hy, hys⟩ := List.pairwise_cons.mp hs
          refine List.pairwise_cons.mpr ⟨?_, ihs hys⟩
          intro b hb
          rcases (mem_insertOn key a b ys).mp hb with rfl | hb
          · omega
          · exact hy b hb
    exact hins x (sortOn key xs) ih

theorem filter_insertOn {α : Type} (key : α → Nat) (p : α → Bool) (a : α)
    (s : List α) (hs : List.Pairwise (fun a b => key a ≤ key b) s) :
    (insertOn key a s).filter p =
      if p a then insertOn key a (s.filter p) else s.filter p := by
  induction s with
  | nil =>
    cases hpa : p a <;> simp [insertOn, List.filter, hpa]
  | cons y ys ih =>
    obtain ⟨hy, hys⟩ := List.pairwise_cons.mp hs
    by_cases h : key a ≤ key y
    · rw [insertOn, if_pos h]
      cases hpa : p a with
      | false =>
        rw [List.filter_cons_of_neg (by simp [hpa])]
        simp [hpa]
      | true =>
        rw [List.filter_cons_of_pos hpa, if_pos rfl]
        cases hf : List.filter p (y :: ys) with
        | nil => rfl
        | cons z zs =>
          have hzm : z ∈ List.filter p (y :: ys) := by
            rw [hf]
            exact List.mem_cons_self z zs
          have hz : key a ≤ key z := by
            have hmem := (List.mem_filter.mp hzm).1
            rcases List.mem_cons.mp hmem with rfl | hzys
            · exact h
            · exact le_trans h (hy z hzys)
          rw [insertOn, if_pos hz]
    · rw [insertOn, if_neg h]
      cases hpy : p y with
      | false =>
        rw [List.filter_cons_of_neg (by simp [hpy]),
          List.filter_cons_of_neg (by simp [hpy]), ih hys]
      | true =>
        rw [List.filter_cons_of_pos hpy, List.filter_cons_of_pos hpy, ih hys]
        cases hpa : p a with
        | false => simp [hpa]
        | true =>
          rw [if_pos rfl, if_pos rfl, insertOn, if_neg h]

theorem filter_sortOn {α : Type} (key : α → Nat) (p : α → Bool) (l : List α) :
    (sortOn key l).filter p = sortOn key (l.filter p) := by
  induction l with
  | nil => rfl
  | cons x xs ih =>
    rw [sortOn, filter_insertOn key p x (sortOn key xs) (sortOn_sorted key xs),
      ih]
    cases hpx : p x with
    | false =>
      rw [List.filter_cons_of_neg (by simp [hpx])]
      simp
    | true =>
      rw [List.filter_cons_of_pos hpx, if_pos rfl, sortOn]

mutual
/-- The canonical exclusion-free recursive clone of a source subtree:
clone the node, then (for a topic with children) clone the children in
ascending lft order with the fresh clone's id as parent and no pk/mods.
Both copy strategies of `_copy` reduce to this function on the pruned
source tree; it exists only for the proofs and is not part of the Python
code. -/
def canon (chid : Option Nat) (can_edit : Option Bool) (orig : Nat → OrigInfo)
    (t : SrcTree) (parent_id : Option Nat) (pk : Option Nat)
    (mods : Option CloneMods) (supply : Nat) : CloneTree × Nat :=
  let cp := clone_node t.data parent_id chid can_edit pk mods orig supply
  if t.data.kind_id = TOPIC ∧ t.children.isEmpty = false then
    let res := canonList chid can_edit orig
      (sortOn (fun c => c.data.lft) t.children) cp.1.id cp.2
    (.node cp.1 res.1, res.2)
  else (.node cp.1 [], cp.2)
termination_by (treeSizeS t, 0)
decreasing_by
  apply Prod.Lex.left
  rw [forestSizeS_sortOn]
  exact forestSizeS_children_lt t

def canonList (chid : Option Nat) (can_edit : Option Bool)
    (orig : Nat → OrigInfo) (l : List SrcTree) (pid : Nat) (supply : Nat) :
    List CloneTree × Nat :=
  match l with
  | [] => ([], supply)
  | c :: rest =>
    let r1 := canon chid can_edit orig c (some pid) none none supply
    let r2 := canonList chid can_edit orig rest pid r1.2
    (r1.1 :: r2.1, r2.2)
termination_by (forestSizeS l, l.length + 1)
decreasing_by
  all_goals
    first
    | (apply Prod.Lex.left
       have := treeSizeS_pos c
       simp only [forestSizeS]
       omega)
    | (rcases Nat.lt_or_ge (treeSizeS c) (forestSizeS (c :: rest)) with hlt | hge
       · exact Prod.Lex.left _ _ hlt
       · have heq : treeSizeS c = forestSizeS (c :: rest) := by
           simp only [forestSizeS] at hge ⊢
           omega
         rw [heq]
         apply Prod.Lex.right
         omega)
end

mutual
/-- Clears the `parent_id` field of every record in a clone tree: the
parent linkage of the created nodes is represented by the tree structure
itself (on the shallow path it is established by the external
`insert_node`, on the deep path by the dict's `parent_id`/`children`). -/
def stripParents : CloneTree → CloneTree
  | .node r cs => .node { r with parent_id := none } (stripParentsF cs)
def stripParentsF : List CloneTree → List CloneTree
  | [] => []
  | c :: rest => stripParents c :: stripParentsF rest
end

mutual
/-- Stored parent links agree with the tree structure: every child row's
`parent_id` is its parent's id. -/
def parentConsistentT : SrcTree → Bool
  | .node d cs => parentConsistentF d.id cs
def parentConsistentF (pid : Nat) : List SrcTree → Bool
  | [] => true
  | c :: rest =>
    (c.data.parent_id == some pid) && parentConsistentT c &&
      parentConsistentF pid rest
end

mutual
/-- Only topic nodes have children (the invariant the domain maintains; the
deep-copy recursion relies on it through its kind check). -/
def topicChildrenT : SrcTree → Bool
  | .node d cs => (cs.isEmpty || (d.kind_id == TOPIC)) && topicChildrenF cs
def topicChildrenF : List SrcTree → Bool
  | [] => true
  | c :: rest => topicChildrenT c && topicChildrenF rest
end

/-- The primary keys of a subtree's rows, in preorder. -/
def idsOfT (t : SrcTree) : List Nat :=
  (flattenS t).map (fun n => n.id)

/-- Well-formedness of a persisted source subtree: consistent parent links,
children only under topics, globally unique primary keys and node ids, and a
root whose own parent reference does not point into the subtree. -/
def WfSrcTree (t : SrcTree) : Prop :=
  parentConsistentT t = true ∧
  topicChildrenT t = true ∧
  (idsOfT t).Nodup ∧
  ((flattenS t).map (fun n => n.node_id)).Nodup ∧
  ((flattenS t).all (fun n => t.data.parent_id != some n.id)) = true

theorem flattenSF_append (l1 l2 : List SrcTree) :
    flattenSF (l1 ++ l2) = flattenSF l1 ++ flattenSF l2 := by
  induction l1 with
  | nil => simp [flattenSF]
  | cons c rest ih => simp [flattenSF, ih]

theorem subtreesSF_append (l1 l2 : List SrcTree) :
    subtreesSF (l1 ++ l2) = subtreesSF l1 ++ subtreesSF l2 := by
  induction l1 with
  | nil => simp [subtreesSF]
  | cons c rest ih => simp [subtreesSF, ih]

theorem self_mem_flattenS (t : SrcTree) : t.data ∈ flattenS t := by
  cases t with
  | node d cs => simp [flattenS, srcData_node]

theorem self_mem_subtreesS (t : SrcTree) : t ∈ subtreesS t := by
  cases t with
  | node d cs => simp [subtreesS]

theorem flattenS_sublist_of_mem (cs : List SrcTree) (c : SrcTree)
    (hc : c ∈ cs) : (flattenS c).Sublist (flattenSF cs) := by
  induction cs with
  | nil => cases hc
  | cons x rest ih =>
    rcases List.mem_cons.mp hc with rfl | hmem
    · rw [flattenSF]
      exact (flattenS c).sublist_append_left (flattenSF rest)
    · rw [flattenSF]
      exact (ih hmem).trans (List.sublist_append_right (flattenS x) (flattenSF rest))

theorem mem_flattenSF_of_mem (cs : List SrcTree) (c : SrcTree) (hc : c ∈ cs)
    (x : SrcNodeData) (hx : x ∈ flattenS c) : x ∈ flattenSF cs :=
  (flattenS_sublist_of_mem cs c hc).mem hx

theorem mem_subtreesSF (cs : List SrcTree) (s : SrcTree) :
    s ∈ subtreesSF cs ↔ ∃ c ∈ cs, s ∈ subtreesS c := by
  induction cs with
  | nil => simp [subtreesSF]
  | cons x rest ih =>
    rw [subtreesSF]
    simp only [List.mem_append, ih, List.mem_cons]
    constructor
    · rintro (h | ⟨c, hc, hs⟩)
      · exact ⟨x, Or.inl rfl, h⟩
      · exact ⟨c, Or.inr hc, hs⟩
    · rintro ⟨c, rfl | hc, hs⟩
      · exact Or.inl hs
      · exact Or.inr ⟨c, hc, hs⟩

theorem parentConsistentF_unpack (pid : Nat) (cs : List SrcTree)
    (h : parentConsistentF pid cs = true) (c : SrcTree) (hc : c ∈ cs) :
    c.data.parent_id = some pid ∧ parentConsistentT c = true := by
  induction cs with
  | nil => cases hc
  | cons x rest ih =>
    rw [parentConsistentF, Bool.and_eq_true, Bool.and_eq_true] at h
    rcases List.mem_cons.mp hc with rfl | hmem
    · exact ⟨by simpa using h.1.1, h.1.2⟩
    · exact ih h.2 hmem

theorem topicChildrenF_unpack (cs : List SrcTree)
    (h : topicChildrenF cs = true) (c : SrcTree) (hc : c ∈ cs) :
    topicChildrenT c = true := by
  induction cs with
  | nil => cases hc
  | cons x rest ih =>
    rw [topicChildrenF, Bool.and_eq_true] at h
    rcases List.mem_cons.mp hc with rfl | hmem
    · exact h.1
    · exact ih h.2 hmem

theorem treeSizeS_le_forest (cs : List SrcTree) (c : SrcTree) (hc : c ∈ cs) :
    treeSizeS c ≤ forestSizeS cs := by
  induction cs with
  | nil => cases hc
  | cons x rest ih =>
    rcases List.mem_cons.mp hc with rfl | hmem
    · simp [forestSizeS]
    · have := ih hmem
      simp only [forestSizeS]
      omega

mutual
theorem flattenS_length (t : SrcTree) :
    (flattenS t).length = treeSizeS t :=
  match t with
  | .node d cs => by
    have h := flattenSF_length cs
    simp [flattenS, treeSizeS, h]
    omega
theorem flattenSF_length (cs : List SrcTree) :
    (flattenSF cs).length = forestSizeS cs :=
  match cs with
  | [] => rfl
  | c :: rest => by
    have h1 := flattenS_length c
    have h2 := flattenSF_length rest
    simp [flattenSF, forestSizeS, h1, h2]
end

theorem pruneT_data (keys : List Nat) (t : SrcTree) :
    (pruneT keys t).data = t.data := by
  cases t with
  | node d cs => rfl

theorem pruneT_children (keys : List Nat) (d : SrcNodeData)
    (cs : List SrcTree) :
    (pruneT keys (SrcTree.node d cs)).children = pruneF keys cs := rfl

theorem pruneF_eq (keys : List Nat) (cs : List SrcTree) :
    pruneF keys cs =
      (cs.filter (fun c => ¬ c.data.node_id ∈ keys)).map (pruneT keys) := by
  induction cs with
  | nil => rfl
  | cons c rest ih =>
    by_cases h : c.data.node_id ∈ keys
    · rw [pruneF, if_pos h, List.filter_cons_of_neg (by simp [h])]
      simpa using ih
    · rw [pruneF, if_neg h, List.filter_cons_of_pos (by simp [h])]
      simpa using ih

mutual
theorem pruneT_flatten_sublist (keys : List Nat) (t : SrcTree) :
    (flattenS (pruneT keys t)).Sublist (flattenS t) :=
  match t with
  | .node d cs => by
    rw [pruneT, flattenS, flattenS]
    exact (pruneF_flatten_sublist keys cs).cons₂ d
theorem pruneF_flatten_sublist (keys : List Nat) (cs : List SrcTree) :
    (flattenSF (pruneF keys cs)).Sublist (flattenSF cs) :=
  match cs with
  | [] => by rw [pruneF]
  | c :: rest => by
    rw [pruneF, flattenSF]
    by_cases h : c.data.node_id ∈ keys
    · rw [if_pos h]
      simp only [List.nil_append]
      exact (pruneF_flatten_sublist keys rest).trans
        (List.sublist_append_right (flattenS c) (flattenSF rest))
    · rw [if_neg h]
      simp only [List.singleton_append, flattenSF]
      exact (pruneT_flatten_sublist keys c).append
        (pruneF_flatten_sublist keys rest)
end

mutual
theorem pruneT_parentConsistent (keys : List Nat) (t : SrcTree)
    (h : parentConsistentT t = true) :
    parentConsistentT (pruneT keys t) = true :=
  match t with
  | .node d cs => by
    rw [pruneT, parentConsistentT]
    rw [parentConsistentT] at h
    exact pruneF_parentConsistent keys d.id cs h
theorem pruneF_parentConsistent (keys : List Nat) (pid : Nat)
    (cs : List SrcTree) (h : parentConsistentF pid cs = true) :
    parentConsistentF pid (pruneF keys cs) = true :=
  match cs with
  | [] => by rw [pruneF]; rfl
  | c :: rest => by
    rw [parentConsistentF, Bool.and_eq_true, Bool.and_eq_true] at h
    rw [pruneF]
    by_cases hk : c.data.node_id ∈ keys
    · rw [if_pos hk]
      simp only [List.nil_append]
      exact pruneF_parentConsistent keys pid rest h.2
    · rw [if_neg hk]
      simp only [List.singleton_append, parentConsistentF]
      rw [Bool.and_eq_true, Bool.and_eq_true]
      refine ⟨⟨?_, pruneT_parentConsistent keys c h.1.2⟩,
        pruneF_parentConsistent keys pid rest h.2⟩
      rw [pruneT_data]
      exact h.1.1
end

mutual
theorem pruneT_topicChildren (keys : List Nat) (t : SrcTree)
    (h : topicChildrenT t = true) :
    topicChildrenT (pruneT keys t) = true :=
  match t with
  | .node d cs => by
    rw [pruneT, topicChildrenT]
    rw [topicChildrenT, Bool.and_eq_true] at h
    rw [Bool.and_eq_true]
    refine ⟨?_, pruneF_topicChildren keys cs h.2⟩
    rcases Bool.or_eq_true_iff.mp h.1 with hemp | htop
    · have : cs = [] := by
        cases cs with
        | nil => rfl
        | cons a b => simp [List.isEmpty] at hemp
      subst this
      rw [pruneF]
      rfl
    · rw [htop]
      simp
theorem pruneF_topicChildren (keys : List Nat) (cs : List SrcTree)
    (h : topicChildrenF cs = true) :
    topicChildrenF (pruneF keys cs) = true :=
  match cs with
  | [] => by rw [pruneF]; rfl
  | c :: rest => by
    rw [topicChildrenF, Bool.and_eq_true] at h
    rw [pruneF]
    by_cases hk : c.data.node_id ∈ keys
    · rw [if_pos hk]
      simp only [List.nil_append]
      exact pruneF_topicChildren keys rest h.2
    · rw [if_neg hk]
      simp only [List.singleton_append, topicChildrenF]
      rw [Bool.and_eq_true]
      exact ⟨pruneT_topicChildren keys c h.1,
        pruneF_topicChildren keys rest h.2⟩
end

mutual
theorem mem_flattenS_of_subtree (t s : SrcTree) (hs : s ∈ subtreesS t)
    (x : SrcNodeData) (hx : x ∈ flattenS s) : x ∈ flattenS t :=
  match t with
  | .node d cs => by
    rw [subtreesS] at hs
    rcases List.mem_cons.mp hs with rfl | hmem
    · exact hx
    · rw [flattenS]
      exact List.mem_cons_of_mem d
        (mem_flattenSF_of_subtree cs s hmem x hx)
theorem mem_flattenSF_of_subtree (cs : List SrcTree) (s : SrcTree)
    (hs : s ∈ subtreesSF cs) (x : SrcNodeData) (hx : x ∈ flattenS s) :
    x ∈ flattenSF cs :=
  match cs with
  | [] => by rw [subtreesSF] at hs; cases hs
  | c :: rest => by
    rw [subtreesSF] at hs
    rw [flattenSF]
    rcases List.mem_append.mp hs with hmem | hmem
    · exact List.mem_append_left _ (mem_flattenS_of_subtree c s hmem x hx)
    · exact List.mem_append_right _ (mem_flattenSF_of_subtree rest s hmem x hx)
end

mutual
theorem parent_in_flattenS (t : SrcTree) (h : parentConsistentT t = true)
    (n : SrcNodeData) (hn : n ∈ flattenS t) :
    n = t.data ∨ ∃ p ∈ flattenS t, n.parent_id = some p.id :=
  match t with
  | .node d cs => by
    rw [flattenS] at hn
    rcases List.mem_cons.mp hn with rfl | hmem
    · exact Or.inl rfl
    · rw [parentConsistentT] at h
      rcases parent_in_flattenSF d.id cs h n hmem with hp | ⟨p, hp, hpid⟩
      · refine Or.inr ⟨d, self_mem_flattenS (SrcTree.node d cs), ?_⟩
        simpa using hp
      · exact Or.inr ⟨p, by rw [flattenS]; exact List.mem_cons_of_mem d hp,
          hpid⟩
theorem parent_in_flattenSF (pid : Nat) (cs : List SrcTree)
    (h : parentConsistentF pid cs = true) (n : SrcNodeData)
    (hn : n ∈ flattenSF cs) :
    n.parent_id = some pid ∨ ∃ p ∈ flattenSF cs, n.parent_id = some p.id :=
  match cs with
  | [] => by rw [flattenSF] at hn; cases hn
  | c :: rest => by
    rw [parentConsistentF, Bool.and_eq_true, Bool.and_eq_true] at h
    rw [flattenSF] at hn
    rcases List.mem_append.mp hn with hmem | hmem
    · rcases parent_in_flattenS c h.1.2 n hmem with rfl | ⟨p, hp, hpid⟩
      · left
        have := h.1.1
        simpa using this
      · right
        exact ⟨p, by rw [flattenSF]; exact List.mem_append_left _ hp, hpid⟩
    · rcases parent_in_flattenSF pid rest h.2 n hmem with hp | ⟨p, hp, hpid⟩
      · exact Or.inl hp
      · right
        exact ⟨p, by rw [flattenSF]; exact List.mem_append_right _ hp, hpid⟩
end

theorem bucketsFor_append (l1 l2 : List SrcNodeData) (x : Nat) :
    bucketsFor (l1 ++ l2) x = bucketsFor l1 x ++ bucketsFor l2 x := by
  simp [bucketsFor, List.filter_append]

theorem parentConsistentF_append (pid : Nat) (l1 l2 : List SrcTree) :
    parentConsistentF pid (l1 ++ l2) =
      (parentConsistentF pid l1 && parentConsistentF pid l2) := by
  induction l1 with
  | nil => simp [parentConsistentF]
  | cons c rest ih =>
    simp [parentConsistentF, ih, Bool.and_assoc]

theorem forestSizeS_append (l1 l2 : List SrcTree) :
    forestSizeS (l1 ++ l2) = forestSizeS l1 + forestSizeS l2 := by
  induction l1 with
  | nil => simp [forestSizeS]
  | cons c rest ih => simp [forestSizeS, ih]; omega

/-- If `x` is not a key inside subtree `c`, the `nodes_by_parent` bucket of
`x` over `c`'s rows is just `c`'s root when its parent is `x`, else empty. -/
theorem bucket_of_subtree (c : SrcTree) (x : Nat)
    (hpc : parentConsistentT c = true)
    (hx : ¬ x ∈ (flattenS c).map (fun n => n.id)) :
    bucketsFor (flattenS c) x =
      if c.data.parent_id = some x then [c.data] else [] := by
  cases c with
  | node d cs =>
    have hpcf : parentConsistentF d.id cs = true := by
      rwa [parentConsistentT] at hpc
    have hxd : d.id ≠ x := by
      intro h
      exact hx (by rw [flattenS]; simp [h])
    have htail : List.filter (fun n => n.parent_id == some x)
        (flattenSF cs) = [] := by
      rw [List.filter_eq_nil_iff]
      intro n hn
      rcases parent_in_flattenSF d.id cs hpcf n hn with hp | ⟨p, hp, hpid⟩
      · simp only [hp, beq_iff_eq, Option.some.injEq]
        exact fun h => hxd h
      · have hpx : p.id ≠ x := by
          intro h
          apply hx
          rw [flattenS, List.map_cons]
          refine List.mem_cons_of_mem _ ?_
          rw [← h]
          exact List.mem_map_of_mem _ hp
        simp only [hpid, beq_iff_eq, Option.some.injEq]
        exact fun h => hpx h
    rw [flattenS]
    simp only [bucketsFor, srcData_node] at htail ⊢
    by_cases hd : d.parent_id = some x
    · rw [List.filter_cons_of_pos (by simp [hd]), htail, if_pos hd]
    · rw [List.filter_cons_of_neg (by simp [hd]), htail, if_neg hd]

/-- Over the rows of a consistent forest whose children all have parent
`pid`, the bucket of `pid` collects exactly the child roots, in order. -/
theorem bucket_forest_children (cs : List SrcTree) (pid : Nat)
    (hpc : parentConsistentF pid cs = true)
    (hout : ∀ c ∈ cs, ¬ pid ∈ (flattenS c).map (fun n => n.id)) :
    bucketsFor (flattenSF cs) pid = cs.map SrcTree.data := by
  induction cs with
  | nil => rfl
  | cons c rest ih =>
    rw [parentConsistentF, Bool.and_eq_true, Bool.and_eq_true] at hpc
    rw [flattenSF, bucketsFor_append]
    rw [bucket_of_subtree c pid hpc.1.2
      (hout c (List.mem_cons_self c rest))]
    rw [if_pos (by simpa using hpc.1.1)]
    rw [ih hpc.2 (fun c' hc' => hout c' (List.mem_cons_of_mem c hc'))]
    rfl

/-- A key that is neither the common parent id nor inside any of the
subtrees has an empty bucket over the forest's rows. -/
theorem bucket_forest_empty (cs : List SrcTree) (pid x : Nat)
    (hpc : parentConsistentF pid cs = true) (hne : x ≠ pid)
    (hout : ∀ c ∈ cs, ¬ x ∈ (flattenS c).map (fun n => n.id)) :
    bucketsFor (flattenSF cs) x = [] := by
  induction cs with
  | nil => rfl
  | cons c rest ih =>
    rw [parentConsistentF, Bool.and_eq_true, Bool.and_eq_true] at hpc
    rw [flattenSF, bucketsFor_append]
    rw [bucket_of_subtree c x hpc.1.2 (hout c (List.mem_cons_self c rest))]
    have hcp : c.data.parent_id = some pid := by simpa using hpc.1.1
    rw [if_neg (by rw [hcp]; intro h; exact hne (by injection h with h; omega))]
    rw [ih hpc.2 (fun c' hc' => hout c' (List.mem_cons_of_mem c hc'))]
    rfl

theorem bucketsFor_cons_neg (n : SrcNodeData) (ns : List SrcNodeData)
    (x : Nat) (h : ¬ n.parent_id = some x) :
    bucketsFor (n :: ns) x = bucketsFor ns x := by
  unfold bucketsFor
  exact List.filter_cons_of_neg (by simp [h])

/-- The central bucket correspondence: over a well-formed subtree's rows,
the `nodes_by_parent` bucket of any subtree root's id holds exactly that
root's children, in order. -/
theorem bucket_match (t : SrcTree) (hpc : parentConsistentT t = true)
    (hnd : (idsOfT t).Nodup)
    (hro : ∀ n ∈ flattenS t, t.data.parent_id ≠ some n.id) :
    ∀ s ∈ subtreesS t,
      bucketsFor (flattenS t) s.data.id = s.children.map SrcTree.data := by
  cases t with
  | node d cs =>
    intro s hs
    have hpcf : parentConsistentF d.id cs = true := by
      rwa [parentConsistentT] at hpc
    rw [idsOfT, flattenS, List.map_cons] at hnd
    have hd_not : ¬ d.id ∈ (flattenSF cs).map (fun n => n.id) :=
      (List.nodup_cons.mp hnd).1
    have hnd_tail : ((flattenSF cs).map (fun n => n.id)).Nodup :=
      (List.nodup_cons.mp hnd).2
    simp only [srcData_node] at hro
    rw [subtreesS] at hs
    rcases List.mem_cons.mp hs with rfl | hmem
    · rw [srcData_node, srcChildren_node, flattenS]
      rw [bucketsFor_cons_neg d _ d.id
        (hro d (self_mem_flattenS (SrcTree.node d cs)))]
      refine bucket_forest_children cs d.id hpcf ?_
      intro c hc hin
      apply hd_not
      exact (List.Sublist.map (fun n => n.id)
        (flattenS_sublist_of_mem cs c hc)).mem hin
    · obtain ⟨c0, hc0, hs0⟩ := (mem_subtreesSF cs s).mp hmem
      obtain ⟨pre, post, hcs⟩ := List.mem_iff_append.mp hc0
      subst hcs
      have hsmemt : s.data ∈ flattenS (SrcTree.node d (pre ++ c0 :: post)) := by
        refine mem_flattenS_of_subtree _ s ?_ s.data (self_mem_flattenS s)
        rw [subtreesS]
        exact List.mem_cons_of_mem _ hmem
      have hhead : ¬ d.parent_id = some s.data.id := hro s.data hsmemt
      rw [parentConsistentF_append, Bool.and_eq_true] at hpcf
      have hpre := hpcf.1
      have hrest := hpcf.2
      rw [parentConsistentF, Bool.and_eq_true, Bool.and_eq_true] at hrest
      have hc0pid : c0.data.parent_id = some d.id := by
        simpa using hrest.1.1
      have hc0pc : parentConsistentT c0 = true := hrest.1.2
      have hpost := hrest.2
      have hidsplit : (flattenSF (pre ++ c0 :: post)).map (fun n => n.id) =
          (flattenSF pre).map (fun n => n.id) ++
          ((flattenS c0).map (fun n => n.id) ++
            (flattenSF post).map (fun n => n.id)) := by
        rw [flattenSF_append, flattenSF]
        simp [List.map_append]
      rw [hidsplit] at hnd_tail hd_not
      have hx0 : s.data.id ∈ (flattenS c0).map (fun n => n.id) := by
        refine List.mem_map_of_mem _ ?_
        exact mem_flattenS_of_subtree c0 s hs0 s.data (self_mem_flattenS s)
      have hxd : s.data.id ≠ d.id := by
        intro h
        apply hd_not
        rw [h] at hx0
        exact List.mem_append_right _ (List.mem_append_left _ hx0)
      have hdisj1 := List.disjoint_of_nodup_append hnd_tail
      have hnd23 := (List.nodup_append.mp hnd_tail).2.1
      have hdisj23 := List.disjoint_of_nodup_append hnd23
      have hxpre : ∀ c ∈ pre, ¬ s.data.id ∈ (flattenS c).map (fun n => n.id) := by
        intro c hc hin
        have : s.data.id ∈ (flattenSF pre).map (fun n => n.id) :=
          (List.Sublist.map (fun n => n.id)
            (flattenS_sublist_of_mem pre c hc)).mem hin
        exact hdisj1 this (List.mem_append_left _ hx0)
      have hxpost : ∀ c ∈ post, ¬ s.data.id ∈ (flattenS c).map (fun n => n.id) := by
        intro c hc hin
        have : s.data.id ∈ (flattenSF post).map (fun n => n.id) :=
          (List.Sublist.map (fun n => n.id)
            (flattenS_sublist_of_mem post c hc)).mem hin
        exact hdisj23 hx0 this
      have hndc0 : (idsOfT c0).Nodup := by
        rw [idsOfT]
        exact (List.nodup_append.mp hnd23).1
      have hroc0 : ∀ n ∈ flattenS c0, c0.data.parent_id ≠ some n.id := by
        intro n hn heq
        rw [hc0pid] at heq
        injection heq with heq
        apply hd_not
        rw [heq]
        refine List.mem_append_right _ (List.mem_append_left _ ?_)
        exact List.mem_map_of_mem _ hn
      have hrec := bucket_match c0 hc0pc hndc0 hroc0 s hs0
      rw [flattenS, bucketsFor_cons_neg d _ s.data.id hhead,
        flattenSF_append, flattenSF, bucketsFor_append, bucketsFor_append]
      rw [bucket_forest_empty pre d.id s.data.id hpre hxd hxpre]
      rw [bucket_forest_empty post d.id s.data.id hpost hxd hxpost]
      rw [hrec]
      simp
termination_by treeSizeS t
decreasing_by
  subst_vars
  simp only [treeSizeS, forestSizeS_append, forestSizeS]
  have := treeSizeS_pos c0
  omega

mutual
/-- Given buckets that agree with the tree structure, the bucket-driven
`_recurse_to_create_tree` builds exactly the canonical clone tree. -/
theorem recurse_eq_canon (fuel : Nat) (t : SrcTree) (pid : Option Nat)
    (chid : Option Nat) (ns : List SrcNodeData) (can_edit : Option Bool)
    (pk : Option Nat) (mods : Option CloneMods) (orig : Nat → OrigInfo)
    (supply : Nat)
    (hB : ∀ s ∈ subtreesS t,
      bucketsFor ns s.data.id = s.children.map SrcTree.data)
    (htc : topicChildrenT t = true) (hfuel : treeSizeS t ≤ fuel) :
    recurse_to_create_tree fuel t.data pid chid ns can_edit pk mods orig
      supply = some (canon chid can_edit orig t pid pk mods supply) :=
  match t, fuel with
  | .node d cs, 0 => by
    exfalso
    rw [treeSizeS] at hfuel
    omega
  | .node d cs, f + 1 => by
    have hbself := hB (SrcTree.node d cs) (self_mem_subtreesS _)
    rw [srcData_node, srcChildren_node] at hbself
    have htcf : topicChildrenF cs = true := by
      rw [topicChildrenT, Bool.and_eq_true] at htc
      exact htc.2
    rw [recurse_to_create_tree, canon]
    simp only [srcData_node, srcChildren_node]
    by_cases hk : d.kind_id = TOPIC
    · by_cases hcs : cs = []
      · subst hcs
        rw [hbself]
        simp
      · have hb_ne : bucketsFor ns d.id ≠ [] := by
          rw [hbself]
          simp [hcs]
        have hemp : cs.isEmpty = false := by
          cases cs with
          | nil => exact absurd rfl hcs
          | cons a b => rfl
        rw [if_pos ⟨hk, hb_ne⟩, if_pos ⟨hk, hemp⟩]
        rw [hbself]
        rw [sortOn_map (fun c => c.data.lft) (fun n => n.lft) SrcTree.data
          (fun a => rfl) cs]
        rw [recurseList_eq_canonList f (sortOn (fun c => c.data.lft) cs)
          _ chid ns can_edit orig _ ?_ ?_ ?_]
        · intro c hc s hsub
          refine hB s ?_
          rw [subtreesS]
          refine List.mem_cons_of_mem _ ((mem_subtreesSF cs s).mpr ?_)
          exact ⟨c, (mem_sortOn _ c cs).mp hc, hsub⟩
        · intro c hc
          exact topicChildrenF_unpack cs htcf c ((mem_sortOn _ c cs).mp hc)
        · intro c hc
          have h1 : treeSizeS c ≤ forestSizeS cs :=
            treeSizeS_le_forest cs c ((mem_sortOn _ c cs).mp hc)
          rw [treeSizeS] at hfuel
          omega
    · have hcond1 : ¬ (d.kind_id = TOPIC ∧ bucketsFor ns d.id ≠ []) := by
        intro h
        exact hk h.1
      have hcond2 : ¬ (d.kind_id = TOPIC ∧ cs.isEmpty = false) := by
        intro h
        exact hk h.1
      rw [if_neg hcond1, if_neg hcond2]
termination_by (fuel, 0)
decreasing_by
  apply Prod.Lex.left
  omega

theorem recurseList_eq_canonList (fuel : Nat) (l : List SrcTree) (pid : Nat)
    (chid : Option Nat) (ns : List SrcNodeData) (can_edit : Option Bool)
    (orig : Nat → OrigInfo) (supply : Nat)
    (hB : ∀ c ∈ l, ∀ s ∈ subtreesS c,
      bucketsFor ns s.data.id = s.children.map SrcTree.data)
    (htc : ∀ c ∈ l, topicChildrenT c = true)
    (hfuel : ∀ c ∈ l, treeSizeS c ≤ fuel) :
    recurseList fuel (l.map SrcTree.data) pid chid ns can_edit orig supply
      = some (canonList chid can_edit orig l pid supply) :=
  match l with
  | [] => by
    rw [List.map_nil, recurseList, canonList]
  | c :: rest => by
    rw [List.map_cons, recurseList, canonList]
    rw [recurse_eq_canon fuel c (some pid) chid ns can_edit none none orig
      supply (hB c (List.mem_cons_self c rest))
      (htc c (List.mem_cons_self c rest))
      (hfuel c (List.mem_cons_self c rest))]
    dsimp only
    rw [recurseList_eq_canonList fuel rest pid chid ns can_edit orig
      (canon chid can_edit orig c (some pid) none none supply).2
      (fun c' hc' => hB c' (List.mem_cons_of_mem c hc'))
      (fun c' hc' => htc c' (List.mem_cons_of_mem c hc'))
      (fun c' hc' => hfuel c' (List.mem_cons_of_mem c hc'))]
termination_by (fuel, l.length + 1)
decreasing_by
  · apply Prod.Lex.right
    omega
  · apply Prod.Lex.right
    simp only [List.length_cons]
    omega
end

mutual
theorem pruneT_nil (t : SrcTree) : pruneT [] t = t :=
  match t with
  | .node d cs => by rw [pruneT, pruneF_nil cs]
theorem pruneF_nil (cs : List SrcTree) : pruneF [] cs = cs :=
  match cs with
  | [] => rfl
  | c :: rest => by
    rw [pruneF, if_neg (by simp), pruneT_nil c, pruneF_nil rest]
    rfl
end

/-- Inside a duplicate-free list, a sublist is determined by its members:
the filter keeping exactly the sublist's members returns the sublist. -/
theorem filter_eq_of_sublist {α : Type} (l : List α) (p : α → Bool) :
    ∀ (s : List α), s.Sublist l → l.Nodup →
      (∀ n ∈ l, (p n = true ↔ n ∈ s)) → l.filter p = s := by
  induction l with
  | nil =>
    intro s hsub _ _
    rw [List.sublist_nil.mp hsub]
    rfl
  | cons a l' ih =>
    intro s hsub hnd hiff
    have hal' : ¬ a ∈ l' := (List.nodup_cons.mp hnd).1
    have hndl' : l'.Nodup := (List.nodup_cons.mp hnd).2
    cases hsub with
    | cons _ h =>
      -- s is a sublist of l' (head skipped); a ∉ s
      have has : ¬ a ∈ s := fun hmem => hal' (h.mem hmem)
      rw [List.filter_cons_of_neg
        (by simpa using fun hp => has ((hiff a (List.mem_cons_self a l')).mp hp))]
      exact ih s h hndl'
        (fun n hn => hiff n (List.mem_cons_of_mem a hn))
    | cons₂ =>
      rename_i s' h
      rw [List.filter_cons_of_pos
        ((hiff a (List.mem_cons_self a l')).mpr (List.mem_cons_self a s'))]
      rw [ih s' h hndl' ?_]
      intro n hn
      rw [hiff n (List.mem_cons_of_mem a hn), List.mem_cons]
      constructor
      · rintro (rfl | hmem)
        · exact absurd hn hal'
        · exact hmem
      · exact Or.inr

mutual
theorem subtreesMatching_eq_filter (keys : List Nat) (t : SrcTree) :
    subtreesMatching keys t =
      (subtreesS t).filter (fun s => s.data.node_id ∈ keys) :=
  match t with
  | .node d cs => by
    rw [subtreesMatching, subtreesS, subtreesMatchingF_eq_filter keys cs]
    by_cases h : d.node_id ∈ keys
    · rw [if_pos h, List.filter_cons_of_pos (by simp [srcData_node, h])]
      rfl
    · rw [if_neg h, List.filter_cons_of_neg (by simp [srcData_node, h])]
      rfl
theorem subtreesMatchingF_eq_filter (keys : List Nat) (cs : List SrcTree) :
    subtreesMatchingF keys cs =
      (subtreesSF cs).filter (fun s => s.data.node_id ∈ keys) :=
  match cs with
  | [] => rfl
  | c :: rest => by
    rw [subtreesMatchingF, subtreesSF, List.filter_append,
      subtreesMatching_eq_filter keys c, subtreesMatchingF_eq_filter keys rest]
end

theorem mem_excludedRecords (t : SrcTree) (keys : List Nat) (n : SrcNodeData) :
    n ∈ excludedRecords t keys ↔
      ∃ e ∈ subtreesMatching keys t, n ∈ flattenS e := by
  rw [excludedRecords]
  rw [List.mem_flatten]
  constructor
  · rintro ⟨l, hl, hn⟩
    obtain ⟨e, he, rfl⟩ := List.mem_map.mp hl
    exact ⟨e, he, hn⟩
  · rintro ⟨e, he, hn⟩
    exact ⟨flattenS e, List.mem_map_of_mem _ he, hn⟩

theorem excludedRecords_subset (t : SrcTree) (keys : List Nat)
    (n : SrcNodeData) (hn : n ∈ excludedRecords t keys) : n ∈ flattenS t := by
  obtain ⟨e, he, hne⟩ := (mem_excludedRecords t keys n).mp hn
  rw [subtreesMatching_eq_filter] at he
  exact mem_flattenS_of_subtree t e (List.mem_filter.mp he).1 n hne

theorem self_mem_subtreesMatching (keys : List Nat) (c : SrcTree)
    (h : c.data.node_id ∈ keys) : c ∈ subtreesMatching keys c := by
  cases c with
  | node d cs =>
    rw [subtreesMatching, if_pos (by simpa [srcData_node] using h)]
    exact List.mem_append_left _ (List.mem_cons_self _ _)

theorem flattenS_subset_of_matchF (keys : List Nat) (cs : List SrcTree)
    (e : SrcTree) (he : e ∈ subtreesMatchingF keys cs) (n : SrcNodeData)
    (hn : n ∈ flattenS e) : n ∈ flattenSF cs := by
  rw [subtreesMatchingF_eq_filter] at he
  exact mem_flattenSF_of_subtree cs e (List.mem_filter.mp he).1 n hn

mutual
theorem prune_mem_iff (excl : List Nat) (t : SrcTree)
    (hnd : (idsOfT t).Nodup) (hroot : ¬ t.data.node_id ∈ excl) :
    ∀ n ∈ flattenS t,
      (n ∈ flattenS (pruneT excl t) ↔ ¬ n ∈ excludedRecords t excl) :=
  match t with
  | .node d cs => by
    intro n hn
    rw [idsOfT, flattenS, List.map_cons, List.nodup_cons] at hnd
    obtain ⟨hd_not, hnd_tail⟩ := hnd
    have hmatch : subtreesMatching excl (SrcTree.node d cs) =
        subtreesMatchingF excl cs := by
      rw [subtreesMatching, if_neg (by simpa [srcData_node] using hroot)]
      rfl
    rw [pruneT, flattenS]
    rw [flattenS] at hn
    rcases List.mem_cons.mp hn with rfl | hmem
    · constructor
      · intro _ hex
        obtain ⟨e, he, hne⟩ := (mem_excludedRecords _ excl n).mp hex
        rw [hmatch] at he
        exact hd_not (List.mem_map_of_mem _
          (flattenS_subset_of_matchF excl cs e he n hne))
      · intro _
        exact List.mem_cons_self _ _
    · have hforest := pruneF_mem_iff excl cs hnd_tail n hmem
      constructor
      · intro hmem' hex
        rcases List.mem_cons.mp hmem' with rfl | hmem''
        · exact hd_not (List.mem_map_of_mem _ hmem)
        · obtain ⟨e, he, hne⟩ := (mem_excludedRecords _ _ n).mp hex
          rw [hmatch] at he
          exact (hforest.mp hmem'') ⟨e, he, hne⟩
      · intro hnex
        refine List.mem_cons_of_mem d (hforest.mpr ?_)
        rintro ⟨e, he, hne⟩
        refine hnex ((mem_excludedRecords _ _ n).mpr ⟨e, ?_, hne⟩)
        rw [hmatch]
        exact he
theorem pruneF_mem_iff (excl : List Nat) (cs : List SrcTree)
    (hnd : ((flattenSF cs).map (fun n => n.id)).Nodup) :
    ∀ n ∈ flattenSF cs,
      (n ∈ flattenSF (pruneF excl cs) ↔
        ¬ ∃ e ∈ subtreesMatchingF excl cs, n ∈ flattenS e) :=
  match cs with
  | [] => by
    intro n hn
    rw [flattenSF] at hn
    cases hn
  | c :: rest => by
    intro n hn
    rw [flattenSF, List.map_append] at hnd
    obtain ⟨hnd1, hnd2, hdisj⟩ := List.nodup_append.mp hnd
    rw [flattenSF] at hn
    rw [pruneF]
    rcases List.mem_append.mp hn with hmem | hmem
    · by_cases hk : c.data.node_id ∈ excl
      · rw [if_pos hk]
        simp only [List.nil_append]
        constructor
        · intro hmem'
          exact absurd (List.mem_map_of_mem _
              ((pruneF_flatten_sublist excl rest).mem hmem'))
            (fun h => hdisj (List.mem_map_of_mem _ hmem) h)
        · intro hnex
          exfalso
          apply hnex
          refine ⟨c, ?_, hmem⟩
          rw [subtreesMatchingF]
          exact List.mem_append_left _ (self_mem_subtreesMatching excl c hk)
      · rw [if_neg hk]
        simp only [List.singleton_append, flattenSF]
        have htree := prune_mem_iff excl c (by rw [idsOfT]; exact hnd1) hk n
          hmem
        constructor
        · intro hmem' hex
          obtain ⟨e, he, hne⟩ := hex
          rcases List.mem_append.mp hmem' with h1 | h2
          · rw [subtreesMatchingF] at he
            rcases List.mem_append.mp he with he1 | he2
            · exact (htree.mp h1)
                ((mem_excludedRecords c excl n).mpr ⟨e, he1, hne⟩)
            · exact hdisj (List.mem_map_of_mem _ hmem)
                (List.mem_map_of_mem _
                  (flattenS_subset_of_matchF excl rest e he2 n hne))
          · exact hdisj (List.mem_map_of_mem _ hmem)
              (List.mem_map_of_mem _
                ((pruneF_flatten_sublist excl rest).mem h2))
        · intro hnex
          refine List.mem_append_left _ (htree.mpr ?_)
          intro hex
          obtain ⟨e, he, hne⟩ := (mem_excludedRecords c excl n).mp hex
          apply hnex
          refine ⟨e, ?_, hne⟩
          rw [subtreesMatchingF]
          exact List.mem_append_left _ he
    · have hrest := pruneF_mem_iff excl rest hnd2 n hmem
      have hnotc : ¬ n ∈ flattenS (pruneT excl c) := by
        intro h
        exact hdisj
          (List.mem_map_of_mem _ ((pruneT_flatten_sublist excl c).mem h))
          (List.mem_map_of_mem _ hmem)
      have hnote : ∀ e ∈ subtreesMatching excl c, ¬ n ∈ flattenS e := by
        intro e he hne
        have : n ∈ flattenS c := by
          rw [subtreesMatching_eq_filter] at he
          exact mem_flattenS_of_subtree c e (List.mem_filter.mp he).1 n hne
        exact hdisj (List.mem_map_of_mem _ this) (List.mem_map_of_mem _ hmem)
      by_cases hk : c.data.node_id ∈ excl
      · rw [if_pos hk]
        simp only [List.nil_append]
        rw [hrest]
        constructor
        · rintro hnex ⟨e, he, hne⟩
          rw [subtreesMatchingF] at he
          rcases List.mem_append.mp he with he1 | he2
          · exact hnote e he1 hne
          · exact hnex ⟨e, he2, hne⟩
        · intro hnex hex
          obtain ⟨e, he, hne⟩ := hex
          refine hnex ⟨e, ?_, hne⟩
          rw [subtreesMatchingF]
          exact List.mem_append_right _ he
      · rw [if_neg hk]
        simp only [List.singleton_append, flattenSF]
        constructor
        · intro hmem' hex
          rcases List.mem_append.mp hmem' with h1 | h2
          · exact hnotc h1
          · obtain ⟨e, he, hne⟩ := hex
            rw [subtreesMatchingF] at he
            rcases List.mem_append.mp he with he1 | he2
            · exact hnote e he1 hne
            · exact (hrest.mp h2) ⟨e, he2, hne⟩
        · intro hnex
          refine List.mem_append_right _ (hrest.mpr ?_)
          rintro ⟨e, he, hne⟩
          refine hnex ⟨e, ?_, hne⟩
          rw [subtreesMatchingF]
          exact List.mem_append_right _ he
end

theorem all_nodes_eq_prune (t : SrcTree) (excl : List Nat)
    (hnd : (idsOfT t).Nodup) (hroot : ¬ t.data.node_id ∈ excl) :
    all_nodes_to_copy t excl = flattenS (pruneT excl t) := by
  by_cases he : excl.isEmpty
  · rw [all_nodes_to_copy, if_pos he]
    rw [List.isEmpty_iff] at he
    rw [he, pruneT_nil]
  · rw [all_nodes_to_copy, if_neg he]
    have hflnd : (flattenS t).Nodup := by
      rw [idsOfT] at hnd
      exact hnd.of_map
    apply filter_eq_of_sublist _ _ _ (pruneT_flatten_sublist excl t) hflnd
    intro n hn
    rw [prune_mem_iff excl t hnd hroot n hn]
    constructor
    · intro hp hex
      simpa using List.all_eq_true.mp hp n hex
    · intro hnex
      rw [List.all_eq_true]
      intro m hm
      by_contra hmn
      simp only [bne_iff_ne, ne_eq, not_not] at hmn
      have hmfl := excludedRecords_subset t excl m hm
      have hmeq : m = n := by
        rw [idsOfT] at hnd
        exact List.inj_on_of_nodup_map hnd hmfl hn hmn
      exact hnex (hmeq ▸ hm)

/-- The `parent` argument of `_clone_node` influences only the clone's
`parent_id` field: every other field, the fresh id/node id, and the id
supply advance are identical for any two parent arguments. -/
theorem clone_node_parent_irrel (source : SrcNodeData) (p1 p2 : Option Nat)
    (chid : Option Nat) (ce : Option Bool) (pk : Option Nat)
    (mods : Option CloneMods) (orig : Nat → OrigInfo) (supply : Nat) :
    ({ (clone_node source p1 chid ce pk mods orig supply).1 with
        parent_id := none } : CloneRecord)
      = { (clone_node source p2 chid ce pk mods orig supply).1 with
          parent_id := none }
    ∧ (clone_node source p1 chid ce pk mods orig supply).1.id
      = (clone_node source p2 chid ce pk mods orig supply).1.id
    ∧ (clone_node source p1 chid ce pk mods orig supply).2
      = (clone_node source p2 chid ce pk mods orig supply).2 := by
  cases mods with
  | none =>
    refine ⟨?_, ?_, rfl⟩
    · simp [clone_node, fixupProvenance_eq]
    · simp [clone_node, fixupProvenance_eq]
  | some m =>
    refine ⟨?_, ?_, rfl⟩
    · simp [clone_node, fixupProvenance_eq, applyMods]
    · simp [clone_node, fixupProvenance_eq, applyMods]

/-- The shallow branch visits exactly the non-excluded children: with no
exclusions the filter is the identity, so both arms equal the filter. -/
theorem children_select_eq (excl : List Nat) (l : List SrcTree) :
    (if excl.isEmpty then l
      else l.filter (fun c => ¬ c.data.node_id ∈ excl))
      = l.filter (fun c => ¬ c.data.node_id ∈ excl) := by
  by_cases he : excl.isEmpty
  · rw [if_pos he]
    have hnil : excl = [] := List.isEmpty_iff.mp he
    subst hnil
    symm
    rw [List.filter_eq_self]
    intro a _
    simp
  · rw [if_neg he]

mutual
/-- Lemma B: up to the externally-assigned `parent_id` fields
(`stripParents`), a `_copy` run equals the canonical recursive clone of the
exclusion-pruned source subtree, for every batch size, and advances the id
supply identically. -/
theorem copyT_strip (fuel : Nat) (t : SrcTree) (tgt : Option Nat)
    (pos : String) (chid : Option Nat) (pk : Option Nat)
    (mods : Option CloneMods) (excl : List Nat) (ce : Option Bool)
    (batch : Int) (orig : Nat → OrigInfo) (supply : Nat)
    (hpc : parentConsistentT t = true) (htc : topicChildrenT t = true)
    (hnd : (idsOfT t).Nodup)
    (hro : ∀ n ∈ flattenS t, t.data.parent_id ≠ some n.id)
    (hroot : ¬ t.data.node_id ∈ excl) (hfuel : treeSizeS t ≤ fuel) :
    (copyT fuel t tgt pos chid pk mods excl ce batch orig supply).map
        (fun o => (stripParents o.tree, o.supply))
      = some
          (stripParents
            (canon chid ce orig (pruneT excl t) tgt pk mods supply).1,
          (canon chid ce orig (pruneT excl t) tgt pk mods supply).2) :=
  match t, fuel with
  | .node d cs, 0 => by
    exfalso
    rw [treeSizeS] at hfuel
    omega
  | .node d cs, f + 1 => by
    rw [copyT]
    by_cases hspan : ((SrcTree.node d cs).data.rght : Int) -
        ((SrcTree.node d cs).data.lft : Int) < batch
    · rw [if_pos hspan]
      have hdeep : deep_copy (SrcTree.node d cs) tgt chid pk mods excl ce
          orig supply
          = some (canon chid ce orig (pruneT excl (SrcTree.node d cs)) tgt pk
              mods supply) := by
        simp only [deep_copy]
        rw [all_nodes_eq_prune (SrcTree.node d cs) excl hnd hroot]
        have hdata : (SrcTree.node d cs).data
            = (pruneT excl (SrcTree.node d cs)).data :=
          (pruneT_data excl (SrcTree.node d cs)).symm
        rw [hdata]
        apply recurse_eq_canon
        · apply bucket_match
          · exact pruneT_parentConsistent excl _ hpc
          · have hsub : (idsOfT (pruneT excl (SrcTree.node d cs))).Sublist
                (idsOfT (SrcTree.node d cs)) := by
              rw [idsOfT, idsOfT]
              exact (pruneT_flatten_sublist excl _).map _
            exact List.Nodup.sublist hsub hnd
          · intro n hnmem
            rw [pruneT_data]
            exact hro n ((pruneT_flatten_sublist excl _).mem hnmem)
        · exact pruneT_topicChildren excl _ htc
        · rw [flattenS_length]
          omega
      rw [hdeep]
      rfl
    · rw [if_neg hspan]
      have hpcf : parentConsistentF d.id cs = true := by
        rwa [parentConsistentT] at hpc
      have htcf : topicChildrenF cs = true := by
        rw [topicChildrenT, Bool.and_eq_true] at htc
        exact htc.2
      have hnd' := hnd
      rw [idsOfT, flattenS, List.map_cons, List.nodup_cons] at hnd'
      obtain ⟨hd_not, hnd_tail⟩ := hnd'
      have hmem : ∀ c ∈ sortOn (fun c => c.data.lft)
          (cs.filter (fun c => ¬ c.data.node_id ∈ excl)),
          parentConsistentT c = true ∧ topicChildrenT c = true ∧
          (idsOfT c).Nodup ∧
          (∀ n ∈ flattenS c, c.data.parent_id ≠ some n.id) ∧
          ¬ c.data.node_id ∈ excl ∧ treeSizeS c ≤ f := by
        intro c hc
        rw [mem_sortOn] at hc
        obtain ⟨hcs, hq⟩ := List.mem_filter.mp hc
        have hq' : ¬ c.data.node_id ∈ excl := by simpa using hq
        obtain ⟨hcp, hcpc⟩ := parentConsistentF_unpack d.id cs hpcf c hcs
        refine ⟨hcpc, topicChildrenF_unpack cs htcf c hcs, ?_, ?_, hq', ?_⟩
        · have hsub : ((flattenS c).map (fun n => n.id)).Sublist
              ((flattenSF cs).map (fun n => n.id)) :=
            (flattenS_sublist_of_mem cs c hcs).map _
          rw [idsOfT]
          exact List.Nodup.sublist hsub hnd_tail
        · intro n hn heq
          rw [hcp, Option.some.injEq] at heq
          apply hd_not
          rw [heq]
          exact List.mem_map_of_mem _
            ((flattenS_sublist_of_mem cs c hcs).mem hn)
        · have h1 := treeSizeS_le_forest cs c hcs
          rw [treeSizeS] at hfuel
          omega
      have hirrel := clone_node_parent_irrel d none tgt chid ce pk mods orig
        supply
      have hcc := copyChildren_strip f
        (sortOn (fun c => c.data.lft)
          (cs.filter (fun c => ¬ c.data.node_id ∈ excl)))
        (clone_node d none chid ce pk mods orig supply).1.id chid excl ce
        batch orig (clone_node d none chid ce pk mods orig supply).2 hmem
      rw [pruneT]
      rw [canon]
      simp only [srcData_node, srcChildren_node]
      rw [children_select_eq excl (sortOn (fun c => c.data.lft) cs),
        filter_sortOn]
      by_cases hk : d.kind_id = TOPIC
      · by_cases hpe : cs.filter (fun c => ¬ c.data.node_id ∈ excl) = []
        · have hpf : pruneF excl cs = [] := by
            rw [pruneF_eq, hpe]
            rfl
          rw [hpe, hpf]
          rw [if_neg (by simp)]
          rw [sortOn, copyChildren]
          dsimp only
          simp only [Option.map_some', Option.some.injEq, Prod.mk.injEq]
          refine ⟨?_, hirrel.2.2⟩
          rw [stripParents, stripParents, stripParentsF]
          rw [hirrel.1]
        · have hpf : pruneF excl cs ≠ [] := by
            rw [pruneF_eq]
            intro hcon
            exact hpe (List.map_eq_nil_iff.mp hcon)
          have hpf' : (pruneF excl cs).isEmpty = false := by
            cases hx : pruneF excl cs with
            | nil => exact absurd hx hpf
            | cons a l => rfl
          rw [if_pos ⟨hk, hpf'⟩]
          have hLmap : sortOn (fun c => c.data.lft) (pruneF excl cs)
              = (sortOn (fun c => c.data.lft)
                  (cs.filter (fun c => ¬ c.data.node_id ∈ excl))).map
                  (pruneT excl) := by
            rw [pruneF_eq]
            exact sortOn_map (fun c => c.data.lft) (fun c => c.data.lft)
              (pruneT excl) (fun a => by simp [pruneT_data]) _
          rw [hLmap, ← hirrel.2.1, ← hirrel.2.2]
          cases hrun : copyChildren f
              (sortOn (fun c => c.data.lft)
                (cs.filter (fun c => ¬ c.data.node_id ∈ excl)))
              (clone_node d none chid ce pk mods orig supply).1.id chid excl
              ce batch orig
              (clone_node d none chid ce pk mods orig supply).2 with
          | none =>
            rw [hrun] at hcc
            simp at hcc
          | some r =>
            rw [hrun] at hcc
            simp only [Option.map_some', Option.some.injEq,
              Prod.mk.injEq] at hcc
            dsimp only
            simp only [Option.map_some', Option.some.injEq, Prod.mk.injEq]
            refine ⟨?_, hcc.2⟩
            rw [stripParents, stripParents]
            rw [hirrel.1, hcc.1]
      · have hcs : cs = [] := by
          rw [topicChildrenT, Bool.and_eq_true] at htc
          rcases Bool.or_eq_true_iff.mp htc.1 with hemp | htop
          · cases cs with
            | nil => rfl
            | cons a b => simp [List.isEmpty] at hemp
          · exact absurd (by simpa using htop) hk
        subst hcs
        rw [if_neg (fun hcon => hk hcon.1)]
        rw [show ([] : List SrcTree).filter
            (fun c => ¬ c.data.node_id ∈ excl) = [] from rfl]
        rw [sortOn, copyChildren]
        dsimp only
        simp only [Option.map_some', Option.some.injEq, Prod.mk.injEq]
        refine ⟨?_, hirrel.2.2⟩
        rw [stripParents, stripParents, stripParentsF]
        rw [hirrel.1]
termination_by (fuel, 0)
decreasing_by
  all_goals
    first
    | (apply Prod.Lex.left; omega)
    | (apply Prod.Lex.right; simp only [List.length_cons]; omega)
theorem copyChildren_strip (fuel : Nat) (l : List SrcTree) (pid : Nat)
    (chid : Option Nat) (excl : List Nat) (ce : Option Bool) (batch : Int)
    (orig : Nat → OrigInfo) (supply : Nat)
    (h : ∀ c ∈ l, parentConsistentT c = true ∧ topicChildrenT c = true ∧
      (idsOfT c).Nodup ∧
      (∀ n ∈ flattenS c, c.data.parent_id ≠ some n.id) ∧
      ¬ c.data.node_id ∈ excl ∧ treeSizeS c ≤ fuel) :
    (copyChildren fuel l pid chid excl ce batch orig supply).map
        (fun o => (stripParentsF o.1, o.2.1))
      = some
          (stripParentsF
            (canonList chid ce orig (l.map (pruneT excl)) pid supply).1,
          (canonList chid ce orig (l.map (pruneT excl)) pid supply).2) :=
  match l with
  | [] => by
    rw [List.map_nil, copyChildren, canonList, stripParentsF]
    rfl
  | c :: rest => by
    obtain ⟨hcpc, hctc, hcnd, hcro, hcexcl, hcfuel⟩ :=
      h c (List.mem_cons_self c rest)
    have hstep := copyT_strip fuel c (some pid) "last-child" chid none none
      excl ce batch orig supply hcpc hctc hcnd hcro hcexcl hcfuel
    rw [List.map_cons, copyChildren, canonList]
    cases hc1 : copyT fuel c (some pid) "last-child" chid none none excl ce
        batch orig supply with
    | none =>
      rw [hc1] at hstep
      simp at hstep
    | some out =>
      rw [hc1] at hstep
      simp only [Option.map_some', Option.some.injEq, Prod.mk.injEq] at hstep
      have hrest := copyChildren_strip fuel rest pid chid excl ce batch orig
        out.supply (fun c' hc' => h c' (List.mem_cons_of_mem c hc'))
      rw [hstep.2] at hrest
      dsimp only
      rw [hstep.2]
      cases hc2 : copyChildren fuel rest pid chid excl ce batch orig
          (canon chid ce orig (pruneT excl c) (some pid) none none
            supply).2 with
      | none =>
        rw [hc2] at hrest
        simp at hrest
      | some rs =>
        rw [hc2] at hrest
        simp only [Option.map_some', Option.some.injEq,
          Prod.mk.injEq] at hrest
        dsimp only
        simp only [Option.map_some', Option.some.injEq, Prod.mk.injEq]
        refine ⟨?_, hrest.2⟩
        rw [stripParentsF, stripParentsF]
        rw [hstep.1, hrest.1]
termination_by (fuel, l.length + 1)
decreasing_by
  all_goals
    first
    | (apply Prod.Lex.left; omega)
    | (apply Prod.Lex.right; simp only [List.length_cons]; omega)
end

/-- C4: for a fixed source subtree and fixed clone inputs, any two batch
thresholds — in particular one below the subtree's span (forcing recursive
shallow copies) and one above it (a single deep copy) — produce the same
records: the same tree shape and the same field values on every copied node
(up to the `parent_id` links, which on the shallow path are assigned by the
surrounding mptt `insert_node` rather than by the data computed here), and
the same id-supply advance.  Only the strategy events differ. -/
theorem copy_threshold_equivalence (fuel : Nat) (t : SrcTree)
    (tgt : Option Nat) (pos : String) (chid : Option Nat) (pk : Option Nat)
    (mods : Option CloneMods) (excl : List Nat) (ce : Option Bool)
    (b1 b2 : Int) (orig : Nat → OrigInfo) (supply : Nat)
    (hwf : WfSrcTree t) (hroot : ¬ t.data.node_id ∈ excl)
    (hfuel : treeSizeS t ≤ fuel) :
    (copyT fuel t tgt pos chid pk mods excl ce b1 orig supply).map
        (fun o => (stripParents o.tree, o.supply))
      = (copyT fuel t tgt pos chid pk mods excl ce b2 orig supply).map
        (fun o => (stripParents o.tree, o.supply)) := by
  obtain ⟨hpc, htc, hnd, _, hro⟩ := hwf
  have hro' : ∀ n ∈ flattenS t, t.data.parent_id ≠ some n.id := by
    intro n hn
    have := List.all_eq_true.mp hro n hn
    simpa using this
  rw [copyT_strip fuel t tgt pos chid pk mods excl ce b1 orig supply hpc htc
    hnd hro' hroot hfuel,
    copyT_strip fuel t tgt pos chid pk mods excl ce b2 orig supply hpc htc
    hnd hro' hroot hfuel]

/-- A minimal well-formed source record for concrete instances. -/
def mkSrc (i nid : Nat) (pid : Option Nat) (kind : String)
    (lft rght : Nat) : SrcNodeData :=
  { id := i, node_id := nid, parent_id := pid, kind_id := kind, lft := lft,
    rght := rght, aggregator := none, original_channel_id := none,
    original_source_node_id := none, freeze_authoring_data := false,
    content_id := "c", title := "t", description := "", language_id := none,
    license_id := none, license_description := none,
    thumbnail_encoding := none, extra_fields := none,
    copyright_holder := none, author := none, provider := none,
    role_visibility := "learner" }

/-- A topic with two leaf children (a well-formed three-row source tree). -/
def sampleSrcTree : SrcTree :=
  .node (mkSrc 1 11 none TOPIC 1 6)
    [.node (mkSrc 2 12 (some 1) "video" 2 3) [],
     .node (mkSrc 3 13 (some 1) "video" 4 5) []]

theorem copy_threshold_equivalence_witness :
    WfSrcTree sampleSrcTree ∧
    ¬ sampleSrcTree.data.node_id ∈ ([] : List Nat) ∧
    treeSizeS sampleSrcTree ≤ 5 ∧
    (copyT 5 sampleSrcTree none "last-child" (some 7) none none []
        (some true) 1 (fun _ => ⟨some 9, 99⟩) 100).map
        (fun o => (stripParents o.tree, o.supply))
      = (copyT 5 sampleSrcTree none "last-child" (some 7) none none []
          (some true) 100 (fun _ => ⟨some 9, 99⟩) 100).map
        (fun o => (stripParents o.tree, o.supply)) :=
  ⟨⟨by decide, by decide, by decide, by decide, by decide⟩, by decide,
   by decide,
   copy_threshold_equivalence 5 sampleSrcTree none "last-child" (some 7)
     none none [] (some true) 1 100 (fun _ => ⟨some 9, 99⟩) 100
     ⟨by decide, by decide, by decide, by decide, by decide⟩ (by decide)
     (by decide)⟩

/-- C1: `copy_node` defaults the batch threshold to `BATCH_SIZE = 100` when
the caller passes none; a `_copy` step performs a single deep copy exactly
when the source's coordinate span `rght - lft` is strictly below the
threshold, and otherwise shallow-copies only the root and recurses per child
of the original source in ascending `lft` order (skipping excluded node
ids); each per-child recursion targets the fresh copy with position
`last-child`. -/
theorem copy_orchestrator_strategy (fuel : Nat) (t : SrcTree)
    (tgt : Option Nat) (pos : String) (chid : Option Nat) (pk : Option Nat)
    (mods : Option CloneMods) (excl : List Nat) (ce : Option Bool)
    (batch : Int) (orig : Nat → OrigInfo) (supply : Nat) :
    (copy_node fuel t tgt pos pk mods excl ce none chid orig supply).2
      = copyT fuel t tgt pos chid pk mods excl ce BATCH_SIZE orig supply
    ∧ copyT (fuel + 1) t tgt pos chid pk mods excl ce batch orig supply
      = (if (t.data.rght : Int) - (t.data.lft : Int) < batch then
          (deep_copy t tgt chid pk mods excl ce orig supply).map
            (fun r => ⟨r.1, r.2, [CopyEvent.deepCopy t.data.id tgt pos]⟩)
        else
          (copyChildren fuel
              ((sortOn (fun c => c.data.lft) t.children).filter
                (fun c => ¬ c.data.node_id ∈ excl))
              (clone_node t.data none chid ce pk mods orig supply).1.id chid
              excl ce batch orig
              (clone_node t.data none chid ce pk mods orig supply).2).map
            (fun r =>
              ⟨.node (clone_node t.data none chid ce pk mods orig
                  supply).1 r.1,
                r.2.1, CopyEvent.shallowCopy t.data.id tgt pos :: r.2.2⟩))
    ∧ ∀ (c : SrcTree) (rest : List SrcTree) (pid s : Nat),
        copyChildren fuel (c :: rest) pid chid excl ce batch orig s
          = (copyT fuel c (some pid) "last-child" chid none none excl ce
              batch orig s).bind
              (fun out =>
                (copyChildren fuel rest pid chid excl ce batch orig
                  out.supply).map
                  (fun rs => (out.tree :: rs.1, rs.2.1,
                    out.events ++ rs.2.2))) := by
  refine ⟨rfl, ?_, ?_⟩
  · rw [copyT]
    by_cases h : (t.data.rght : Int) - (t.data.lft : Int) < batch
    · rw [if_pos h, if_pos h]
      cases hd : deep_copy t tgt chid pk mods excl ce orig supply with
      | none => rfl
      | some r => rfl
    · rw [if_neg h, if_neg h]
      dsimp only
      rw [children_select_eq]
      cases hc : copyChildren fuel
          ((sortOn (fun c => c.data.lft) t.children).filter
            (fun c => ¬ c.data.node_id ∈ excl))
          (clone_node t.data none chid ce pk mods orig supply).1.id chid
          excl ce batch orig
          (clone_node t.data none chid ce pk mods orig supply).2 with
      | none => rfl
      | some r => rfl
  · intro c rest pid s
    rw [copyChildren]
    cases h1 : copyT fuel c (some pid) "last-child" chid none none excl ce
        batch orig s with
    | none => rfl
    | some out =>
      dsimp only [Option.bind]
      cases h2 : copyChildren fuel rest pid chid excl ce batch orig
          out.supply with
      | none => rfl
      | some rs => rfl

mutual
theorem subtree_flatten_sublist (t : SrcTree) :
    ∀ s ∈ subtreesS t, (flattenS s).Sublist (flattenS t) :=
  match t with
  | .node d cs => by
    intro s hs
    rw [subtreesS] at hs
    rcases List.mem_cons.mp hs with rfl | hmem
    · exact List.Sublist.refl _
    · rw [flattenS]
      exact (subtreeF_flatten_sublist cs s hmem).trans
        (List.sublist_cons_self d (flattenSF cs))
theorem subtreeF_flatten_sublist (cs : List SrcTree) :
    ∀ s ∈ subtreesSF cs, (flattenS s).Sublist (flattenSF cs) :=
  match cs with
  | [] => by
    intro s hs
    rw [subtreesSF] at hs
    cases hs
  | c :: rest => by
    intro s hs
    rw [subtreesSF] at hs
    rw [flattenSF]
    rcases List.mem_append.mp hs with h1 | h2
    · exact (subtree_flatten_sublist c s h1).trans
        ((flattenS c).sublist_append_left (flattenSF rest))
    · exact (subtreeF_flatten_sublist rest s h2).trans
        (List.sublist_append_right (flattenS c) (flattenSF rest))
end

theorem length_filter_partition {α : Type} (p : α → Bool) (l : List α) :
    (l.filter p).length + (l.filter (fun a => !(p a))).length = l.length := by
  induction l with
  | nil => rfl
  | cons a l ih =>
    cases hpa : p a <;>
      simp [List.filter_cons, hpa] <;>
      omega

mutual
theorem cloneSize_strip (c : CloneTree) :
    cloneSize (stripParents c) = cloneSize c :=
  match c with
  | .node r cs => by
    rw [stripParents, cloneSize, cloneSize, cloneSizeF_strip cs]
theorem cloneSizeF_strip (cs : List CloneTree) :
    cloneSizeF (stripParentsF cs) = cloneSizeF cs :=
  match cs with
  | [] => rfl
  | c :: rest => by
    rw [stripParentsF, cloneSizeF, cloneSizeF, cloneSize_strip c,
      cloneSizeF_strip rest]
end

mutual
/-- The canonical clone creates exactly one record per source row, provided
children appear only under topics (the invariant the recursion's kind check
relies on). -/
theorem canon_size (chid : Option Nat) (ce : Option Bool)
    (orig : Nat → OrigInfo) (t : SrcTree) (pid : Option Nat)
    (pk : Option Nat) (mods : Option CloneMods) (supply : Nat)
    (htc : topicChildrenT t = true) :
    cloneSize (canon chid ce orig t pid pk mods supply).1 = treeSizeS t :=
  match t with
  | .node d cs => by
    have htcf : topicChildrenF cs = true := by
      rw [topicChildrenT, Bool.and_eq_true] at htc
      exact htc.2
    rw [canon]
    simp only [srcData_node, srcChildren_node]
    by_cases hcond : d.kind_id = TOPIC ∧ cs.isEmpty = false
    · rw [if_pos hcond]
      dsimp only
      rw [cloneSize]
      rw [canonList_size chid ce orig (sortOn (fun c => c.data.lft) cs) _ _
        (fun c hc =>
          topicChildrenF_unpack cs htcf c ((mem_sortOn _ c cs).mp hc))]
      rw [forestSizeS_sortOn, treeSizeS]
    · rw [if_neg hcond]
      dsimp only
      rw [cloneSize, cloneSizeF, treeSizeS]
      cases hcs : cs with
      | nil => rw [forestSizeS]
      | cons a b =>
        exfalso
        apply hcond
        subst hcs
        constructor
        · rw [topicChildrenT, Bool.and_eq_true] at htc
          rcases Bool.or_eq_true_iff.mp htc.1 with hemp | htop
          · simp [List.isEmpty] at hemp
          · simpa using htop
        · rfl
termination_by (treeSizeS t, 0)
decreasing_by
  subst_vars
  apply Prod.Lex.left
  rw [forestSizeS_sortOn]
  simpa using forestSizeS_children_lt (SrcTree.node d cs)
theorem canonList_size (chid : Option Nat) (ce : Option Bool)
    (orig : Nat → OrigInfo) (l : List SrcTree) (pid : Nat) (supply : Nat)
    (htc : ∀ c ∈ l, topicChildrenT c = true) :
    cloneSizeF (canonList chid ce orig l pid supply).1 = forestSizeS l :=
  match l with
  | [] => by
    rw [canonList]
    rfl
  | c :: rest => by
    rw [canonList]
    dsimp only
    rw [cloneSizeF]
    rw [canon_size chid ce orig c (some pid) none none supply
      (htc c (List.mem_cons_self c rest))]
    rw [canonList_size chid ce orig rest pid
      (canon chid ce orig c (some pid) none none supply).2
      (fun c' hc' => htc c' (List.mem_cons_of_mem c hc'))]
    rw [forestSizeS]
termination_by (forestSizeS l, l.length + 1)
decreasing_by
  all_goals subst_vars
  all_goals
    first
    | (apply Prod.Lex.left
       have := treeSizeS_pos c
       simp only [forestSizeS]
       omega)
    | (rcases Nat.lt_or_ge (treeSizeS c) (forestSizeS (c :: rest)) with
        hlt | hge
       · exact Prod.Lex.left _ _ hlt
       · have heq : treeSizeS c = forestSizeS (c :: rest) := by
           simp only [forestSizeS] at hge ⊢
           omega
         rw [heq]
         apply Prod.Lex.right
         omega)
end

/-- When the excluded subtrees are pairwise disjoint, pruning removes
exactly the sum of their sizes. -/
theorem prune_size_count (t : SrcTree) (excl : List Nat)
    (hnd : (idsOfT t).Nodup) (hroot : ¬ t.data.node_id ∈ excl)
    (hdisj : List.Pairwise
      (fun a b => ∀ n ∈ flattenS a, ∀ m ∈ flattenS b, n.id ≠ m.id)
      (subtreesMatching excl t)) :
    treeSizeS (pruneT excl t)
      = treeSizeS t - ((subtreesMatching excl t).map treeSizeS).sum := by
  have hflnd : (flattenS t).Nodup := by
    rw [idsOfT] at hnd
    exact hnd.of_map
  have hfil : (flattenS t).filter
      (fun n => decide (¬ n ∈ excludedRecords t excl))
      = flattenS (pruneT excl t) := by
    apply filter_eq_of_sublist _ _ _ (pruneT_flatten_sublist excl t) hflnd
    intro n hn
    rw [prune_mem_iff excl t hnd hroot n hn]
    simp
  have hexnd : (excludedRecords t excl).Nodup := by
    rw [excludedRecords, List.nodup_flatten]
    constructor
    · intro l hl
      obtain ⟨e, he, rfl⟩ := List.mem_map.mp hl
      rw [subtreesMatching_eq_filter] at he
      exact List.Nodup.sublist
        (subtree_flatten_sublist t e (List.mem_filter.mp he).1) hflnd
    · rw [List.pairwise_map]
      refine hdisj.imp ?_
      intro a b hab x hx1 hx2
      exact hab x hx1 x hx2 rfl
  have hcomp : ((flattenS t).filter
      (fun n => !(decide (¬ n ∈ excludedRecords t excl)))).Perm
      (excludedRecords t excl) := by
    rw [List.perm_ext_iff_of_nodup (List.Nodup.filter _ hflnd) hexnd]
    intro a
    rw [List.mem_filter]
    constructor
    · rintro ⟨_, h2⟩
      simpa using h2
    · intro ha
      exact ⟨excludedRecords_subset t excl a ha, by simpa using ha⟩
  have hlen := length_filter_partition
    (fun n => decide (¬ n ∈ excludedRecords t excl)) (flattenS t)
  have hexlen : (excludedRecords t excl).length
      = ((subtreesMatching excl t).map treeSizeS).sum := by
    rw [excludedRecords, List.length_flatten, List.map_map]
    congr 1
    apply List.map_congr_left
    intro e he
    exact flattenS_length e
  have h1 : (flattenS t).length = treeSizeS t := flattenS_length t
  have h2 : (flattenS (pruneT excl t)).length = treeSizeS (pruneT excl t) :=
    flattenS_length (pruneT excl t)
  rw [← hfil] at h2
  have h3 := hcomp.length_eq
  omega

/-- A topic whose only child is a topic with one leaf: excluding both the
middle node and its leaf nests one excluded subtree inside the other. -/
def cexC6Tree : SrcTree :=
  .node (mkSrc 1 11 none TOPIC 1 6)
    [.node (mkSrc 2 12 (some 1) TOPIC 2 5)
      [.node (mkSrc 3 13 (some 2) "video" 3 4) []]]

/-- C6 counterexample: with nested excluded descendants (node 13 lies inside
excluded node 12's subtree) the claimed identity `total created = N - sum of
excluded subtree sizes` fails.  N = 3 and the matched subtrees have sizes 2
and 1, so the claimed total is 3 - 3 = 0; but the copy correctly removes the
union of the two overlapping subtrees (2 rows) and creates 1 node, and the
progress total is likewise 1. -/
theorem copy_exclusion_sum_cex :
    WfSrcTree cexC6Tree ∧ ([12, 13] : List Nat) ≠ [] ∧
    (∀ k ∈ ([12, 13] : List Nat),
      k ∈ (flattenSF cexC6Tree.children).map (fun n => n.node_id)) ∧
    (copy_node 4 cexC6Tree none "last-child" none none [12, 13] (some true)
        none (some 7) (fun _ => ⟨some 9, 99⟩) 100).1 = 1 ∧
    ((copy_node 4 cexC6Tree none "last-child" none none [12, 13] (some true)
        none (some 7) (fun _ => ⟨some 9, 99⟩) 100).2).map
      (fun o => cloneSize o.tree) = some 1 ∧
    treeSizeS cexC6Tree
      - ((subtreesMatching [12, 13] cexC6Tree).map treeSizeS).sum = 0 := by
  refine ⟨⟨by decide, by decide, by decide, by decide, by decide⟩,
    by decide, by decide, by decide, ?_, by decide⟩
  have hstrip := copyT_strip 4 cexC6Tree none "last-child" (some 7) none
    none [12, 13] (some true) 100 (fun _ => ⟨some 9, 99⟩) 100
    (by decide) (by decide) (by decide) (by decide) (by decide) (by decide)
  show (copyT 4 cexC6Tree none "last-child" (some 7) none none [12, 13]
    (some true) 100 (fun _ => ⟨some 9, 99⟩) 100).map
      (fun o => cloneSize o.tree) = some 1
  cases hrun : copyT 4 cexC6Tree none "last-child" (some 7) none none
      [12, 13] (some true) 100 (fun _ => ⟨some 9, 99⟩) 100 with
  | none =>
    rw [hrun] at hstrip
    simp at hstrip
  | some out =>
    rw [hrun] at hstrip
    simp only [Option.map_some', Option.some.injEq, Prod.mk.injEq] at hstrip
    rw [Option.map_some']
    congr 1
    have hcs : cloneSize out.tree = cloneSize (stripParents out.tree) :=
      (cloneSize_strip out.tree).symm
    rw [hcs, hstrip.1, cloneSize_strip,
      canon_size (some 7) (some true) (fun _ => ⟨some 9, 99⟩)
        (pruneT [12, 13] cexC6Tree) none none none 100
        (pruneT_topicChildren [12, 13] cexC6Tree (by decide))]
    decide

/-- C6 amended: when the matched excluded subtrees are pairwise disjoint
(no excluded node inside another excluded subtree), the copy excludes each
excluded node together with its entire descendant subtree from both the
sizing/progress total and the recursion, and the progress total and the
number of records created both equal the source size minus the sum of the
excluded subtrees' sizes.  (With nested exclusions the sum over-counts: the
removed rows are the union of the matched subtrees.) -/
theorem copy_exclusion_subtree_semantics (fuel : Nat) (t : SrcTree)
    (tgt : Option Nat) (pos : String) (pk : Option Nat)
    (mods : Option CloneMods) (excl : List Nat) (ce : Option Bool)
    (bs : Option Int) (chid : Option Nat) (orig : Nat → OrigInfo)
    (supply : Nat) (hwf : WfSrcTree t) (hroot : ¬ t.data.node_id ∈ excl)
    (hfuel : treeSizeS t ≤ fuel)
    (hdisj : List.Pairwise
      (fun a b => ∀ n ∈ flattenS a, ∀ m ∈ flattenS b, n.id ≠ m.id)
      (subtreesMatching excl t)) :
    (copy_node fuel t tgt pos pk mods excl ce bs chid orig supply).1
      = treeSizeS t - ((subtreesMatching excl t).map treeSizeS).sum
    ∧ ((copy_node fuel t tgt pos pk mods excl ce bs chid orig supply).2).map
        (fun o => cloneSize o.tree)
      = some (treeSizeS t
          - ((subtreesMatching excl t).map treeSizeS).sum) := by
  obtain ⟨hpc, htc, hnd, hn2, hro⟩ := hwf
  have hro' : ∀ n ∈ flattenS t, t.data.parent_id ≠ some n.id := by
    intro n hn
    have := List.all_eq_true.mp hro n hn
    simpa using this
  have hsize := prune_size_count t excl hnd hroot hdisj
  have htotal : (copy_node fuel t tgt pos pk mods excl ce bs chid orig
      supply).1 = treeSizeS (pruneT excl t) := by
    show (all_nodes_to_copy t excl).length = _
    rw [all_nodes_eq_prune t excl hnd hroot, flattenS_length]
  have hstrip := copyT_strip fuel t tgt pos chid pk mods excl ce
    (bs.getD BATCH_SIZE) orig supply hpc htc hnd hro' hroot hfuel
  refine ⟨by rw [htotal, hsize], ?_⟩
  show (copyT fuel t tgt pos chid pk mods excl ce (bs.getD BATCH_SIZE) orig
    supply).map (fun o => cloneSize o.tree) = _
  cases hrun : copyT fuel t tgt pos chid pk mods excl ce
      (bs.getD BATCH_SIZE) orig supply with
  | none =>
    rw [hrun] at hstrip
    simp at hstrip
  | some out =>
    rw [hrun] at hstrip
    simp only [Option.map_some', Option.some.injEq, Prod.mk.injEq] at hstrip
    rw [Option.map_some']
    congr 1
    have hcs : cloneSize out.tree = cloneSize (stripParents out.tree) :=
      (cloneSize_strip out.tree).symm
    rw [hcs, hstrip.1, cloneSize_strip,
      canon_size chid ce orig (pruneT excl t) tgt pk mods supply
        (pruneT_topicChildren excl t htc),
      hsize]

theorem copy_exclusion_subtree_semantics_witness :
    WfSrcTree sampleSrcTree ∧
    ¬ sampleSrcTree.data.node_id ∈ [12] ∧
    treeSizeS sampleSrcTree ≤ 4 ∧
    List.Pairwise
      (fun a b => ∀ n ∈ flattenS a, ∀ m ∈ flattenS b, n.id ≠ m.id)
      (subtreesMatching [12] sampleSrcTree) ∧
    ((copy_node 4 sampleSrcTree none "last-child" none none [12]
        (some true) none (some 7) (fun _ => ⟨some 9, 99⟩) 100).1
      = treeSizeS sampleSrcTree
        - ((subtreesMatching [12] sampleSrcTree).map treeSizeS).sum
    ∧ ((copy_node 4 sampleSrcTree none "last-child" none none [12]
        (some true) none (some 7) (fun _ => ⟨some 9, 99⟩) 100).2).map
        (fun o => cloneSize o.tree)
      = some (treeSizeS sampleSrcTree
          - ((subtreesMatching [12] sampleSrcTree).map treeSizeS).sum)) :=
  ⟨⟨by decide, by decide, by decide, by decide, by decide⟩, by decide,
   by decide, by decide,
   copy_exclusion_subtree_semantics 4 sampleSrcTree none "last-child" none
     none [12] (some true) none (some 7) (fun _ => ⟨some 9, 99⟩) 100
     ⟨by decide, by decide, by decide, by decide, by decide⟩ (by decide)
     (by decide) (by decide)⟩
